import Mathlib

/-!
Verification development for the code-search MCP server: repository
identity resolution, the repository registry, collection-name migration,
snapshot loading/migration, the HTTP middleware, and the cross-repository
search engine. Definitions are shallow embeddings of the TypeScript
sources; external effects (filesystem, git subprocesses, clocks, hashes,
the Node `path` module) are passed as explicit environments.
-/

/-! ## Shared string helpers (JavaScript semantics) -/

/-- Characters removed by JavaScript `String.prototype.trim`
(whitespace and line terminators). -/
def jsSpace (c : Char) : Bool :=
  c = ' ' || c = '\t' || c = '\n' || c = '\r' || c = '\x0b' || c = '\x0c' ||
  c = '\u00A0' || c = '\uFEFF' || c = '\u2028' || c = '\u2029'

/-- Line terminators, which `.` in a JavaScript regex does not match. -/
def jsLineTerm (c : Char) : Bool :=
  c = '\n' || c = '\r' || c = '\u2028' || c = '\u2029'

/-- JavaScript `String.prototype.trim` on an explicit character list. -/
def jsTrim (l : List Char) : List Char :=
  ((l.dropWhile jsSpace).reverse.dropWhile jsSpace).reverse

/-- JavaScript `String.prototype.trim` on strings. -/
def jsTrimS (s : String) : String := String.mk (jsTrim s.data)

/-- Split a character list on every occurrence of `sep`, keeping empty
segments (JavaScript `String.prototype.split` with a one-character
separator). -/
def splitOnChar (sep : Char) : List Char → List (List Char)
  | [] => [[]]
  | x :: xs =>
    let r := splitOnChar sep xs
    if x = sep then [] :: r
    else (x :: r.headD []) :: r.tail

/-- JavaScript `split` with a one-character separator, on strings. -/
def jsSplit (sep : Char) (s : String) : List String :=
  (splitOnChar sep s.data).map String.mk

/-- JavaScript `toLowerCase` (ASCII case folding suffices here). -/
def jsToLower (s : String) : String := String.mk (s.data.map Char.toLower)

/-- Split a character list at the first occurrence of `c`; the separator
is dropped. Returns `none` when `c` does not occur. -/
def splitAtFirst (c : Char) : List Char → Option (List Char × List Char)
  | [] => none
  | x :: xs =>
    if x = c then some ([], xs)
    else (splitAtFirst c xs).map (fun p => (x :: p.1, p.2))

/-- Association-list lookup, modelling JavaScript `Map.get`. -/
def alookup {β : Type} (m : List (String × β)) (k : String) : Option β :=
  match m with
  | [] => none
  | (k2, v) :: rest => if k2 = k then some v else alookup rest k

/-- Association-list update, modelling JavaScript `Map.set` (an existing
key keeps its position; a new key is appended, preserving insertion
order). -/
def aset {β : Type} (m : List (String × β)) (k : String) (v : β) : List (String × β) :=
  match m with
  | [] => [(k, v)]
  | (k2, v2) :: rest => if k2 = k then (k2, v) :: rest else (k2, v2) :: aset rest k v

/-! ## `git-utils.ts`: URL normalization

`normalizeGitUrl` is a pure function built from two JavaScript regexes;
it is embedded here on explicit character lists, with the regex
semantics (greedy matching with backtracking) spelled out. -/

/-- `path.replace(/\.git$/, '')`: strip one trailing `.git`. -/
def stripDotGit (l : List Char) : List Char :=
  if (".git".data).isSuffixOf l then l.take (l.length - 4) else l

/-- The regex `^git@([^:]+):(.+)$`: a literal `git@`, a non-empty host
without `:`, a colon, then a non-empty remainder without line
terminators. -/
def sshMatch (l : List Char) : Option (List Char × List Char) :=
  if ("git@".data).isPrefixOf l then
    match splitAtFirst ':' (l.drop 4) with
    | none => none
    | some (host, p) =>
      if host ≠ [] ∧ p ≠ [] ∧ p.all (fun c => !jsLineTerm c) then some (host, p) else none
  else none

/-- `([^/]+)\/(.+)$`: a non-empty host up to the first slash, then the
non-empty remainder without line terminators. -/
def hostPathMatch (l : List Char) : Option (List Char × List Char) :=
  match splitAtFirst '/' l with
  | none => none
  | some (host, p) =>
    if host ≠ [] ∧ p ≠ [] ∧ p.all (fun c => !jsLineTerm c) then some (host, p) else none

/-- The optional greedy credential group `(?:[^@]+@)?` before
`([^/]+)\/(.+)$`. The greedy engine first commits the credentials up to
the first `@`; if the rest fails to match it backtracks to skipping the
group altogether. -/
def urlTail (l : List Char) : Option (List Char × List Char) :=
  match splitAtFirst '@' l with
  | some (creds, r2) =>
    if creds ≠ [] then
      match hostPathMatch r2 with
      | some hp => some hp
      | none => hostPathMatch l
    else hostPathMatch l
  | none => hostPathMatch l

/-- The scheme alternation `^(?:ssh|https?|git):\/\/` of the URL regex. -/
def urlSchemeSplit (l : List Char) : Option (List Char) :=
  if ("ssh://".data).isPrefixOf l then some (l.drop 6)
  else if ("https://".data).isPrefixOf l then some (l.drop 8)
  else if ("http://".data).isPrefixOf l then some (l.drop 7)
  else if ("git://".data).isPrefixOf l then some (l.drop 6)
  else none

/-- The regex `^(?:ssh|https?|git):\/\/(?:[^@]+@)?([^/]+)\/(.+)$`. -/
def urlMatch (l : List Char) : Option (List Char × List Char) :=
  (urlSchemeSplit l).bind urlTail

/-- `normalizeGitUrl` from `git-utils.ts`, on character lists: try the
SSH form, then the URL form, strip a trailing `.git` from the captured
path, and return `host/path`; `file://` URLs and anything else yield
`none`. -/
def normalizeGitUrlCore (url : List Char) : Option (List Char) :=
  let normalized := jsTrim url
  match sshMatch normalized with
  | some (host, p) => some (host ++ '/' :: stripDotGit p)
  | none =>
    match urlMatch normalized with
    | some (host, p) => some (host ++ '/' :: stripDotGit p)
    | none =>
      if ("file://".data).isPrefixOf normalized then none else none

/-- `normalizeGitUrl` on strings (the empty string is falsy in the
TypeScript guard and returns `null`). -/
def normalizeGitUrl (url : String) : Option String :=
  if url = "" then none else (normalizeGitUrlCore url.data).map String.mk

/-! ## `git-utils.ts`: repository detection

The Node `path` module and the filesystem are external; they appear as
fields of `GitEnv`. The upward walk of `findGitPath` is a `while` loop
whose termination in TypeScript relies on `path.dirname` reaching the
filesystem root; here it carries explicit fuel. -/

/-- Result of `fs.statSync`: directory, regular file, or something else
(`none` means the call threw, i.e. no entry). -/
inductive FileKind
  | dir
  | file
  | other
deriving DecidableEq, Repr

/-- How a repository's canonical ID was derived. -/
inductive IdentitySource
  | remoteUrl
  | initialCommit
  | pathHash
deriving DecidableEq, Repr

/-- Environment for the git utilities and the identity resolver: the
Node `path` module, the filesystem, the git subprocess runner, the MD5
hash, and the clock. -/
structure GitEnv where
  resolve : String → String
  dirname : String → String
  basename : String → String
  join2 : String → String → String
  rootOf : String → String
  resolveUp2 : String → String
  stat : String → Option FileKind
  readFile : String → Option String
  runGit : String → String → Option String
  md5 : String → String
  now : String
  pathExists : String → Bool

/-- `execGitCommand`: run a git subcommand, trimming the output;
failures (non-zero exit, timeout, decode error) are `none`. -/
def execGitCommand (env : GitEnv) (command : String) (cwd : String) : Option String :=
  (env.runGit command cwd).map jsTrimS

/-- `getRemoteOriginUrl`. -/
def getRemoteOriginUrl (env : GitEnv) (repoPath : String) : Option String :=
  execGitCommand env "git config --get remote.origin.url" repoPath

/-- `getInitialCommitSha`. -/
def getInitialCommitSha (env : GitEnv) (repoPath : String) : Option String :=
  execGitCommand env "git rev-list --max-parents=0 HEAD" repoPath

/-- `listWorktrees`: parse `git worktree list --porcelain` output. -/
def listWorktrees (env : GitEnv) (repoPath : String) : List String :=
  match execGitCommand env "git worktree list --porcelain" repoPath with
  | none => []
  | some result =>
    (result.splitOn "\n").filterMap (fun line =>
      if "worktree ".isPrefixOf line then some (line.drop 9) else none)

/-- The loop body of `findGitPath`: walk upward from `currentPath`
until the root (the root itself is never checked). -/
def findGitPathAux (env : GitEnv) : Nat → String → String → Option (String × Bool)
  | 0, _, _ => none
  | fuel + 1, root, currentPath =>
    if currentPath = root then none
    else
      let gitPath := env.join2 currentPath ".git"
      match env.stat gitPath with
      | some .dir => some (gitPath, false)
      | some .file => some (gitPath, true)
      | _ => findGitPathAux env fuel root (env.dirname currentPath)

/-- `findGitPath`: find the `.git` directory or file by walking up;
returns its path and whether it is a file (worktree pointer). -/
def findGitPath (env : GitEnv) (fuel : Nat) (startPath : String) : Option (String × Bool) :=
  let start := env.resolve startPath
  findGitPathAux env fuel (env.rootOf start) start

/-- Result of `detectGitRepo`. -/
structure GitDetectionResult where
  isGitRepo : Bool
  repoRoot : Option String := none
  isWorktree : Bool
  mainGitDir : Option String := none
  gitPath : Option String := none
deriving DecidableEq, Repr

/-- Parse the trimmed content of a worktree `.git` pointer file with the
regex `^gitdir:\s*(.+)$`: a literal `gitdir:`, greedily consumed
whitespace, then a non-empty remainder without line terminators. -/
def parseGitdirPointer (content : String) : Option String :=
  let t := jsTrim content.data
  if ("gitdir:".data).isPrefixOf t then
    let rest := (t.drop 7).dropWhile jsSpace
    if rest ≠ [] ∧ rest.all (fun c => !jsLineTerm c) then some (String.mk rest) else none
  else none

/-- `detectGitRepo`: detect a repository at a path, resolving a worktree
pointer file; an unreadable or unparseable pointer file falls back to
treating the path as a regular repository. -/
def detectGitRepo (env : GitEnv) (fuel : Nat) (targetPath : String) : GitDetectionResult :=
  let resolvedPath := env.resolve targetPath
  match findGitPath env fuel resolvedPath with
  | none => { isGitRepo := false, isWorktree := false }
  | some (gitPath, isFile) =>
    let repoRoot := env.dirname gitPath
    if isFile then
      match env.readFile gitPath with
      | some content =>
        match parseGitdirPointer content with
        | some worktreeGitDir =>
          { isGitRepo := true, repoRoot := some repoRoot, isWorktree := true,
            mainGitDir := some (env.resolveUp2 worktreeGitDir), gitPath := some gitPath }
        | none =>
          { isGitRepo := true, repoRoot := some repoRoot, isWorktree := false,
            gitPath := some gitPath }
      | none =>
        { isGitRepo := true, repoRoot := some repoRoot, isWorktree := false,
          gitPath := some gitPath }
    else
      { isGitRepo := true, repoRoot := some repoRoot, isWorktree := false,
        gitPath := some gitPath }

/-! ## `repo-identity` (part_004): the identity resolver -/

/-- `RepoIdentity`: the canonical identity of a repository. -/
structure RepoIdentity where
  canonicalId : String
  remoteUrl : Option String := none
  mainWorktreePath : Option String := none
  detectedPaths : List String
  displayName : String
  identitySource : IdentitySource
  isGitRepo : Bool
  isWorktree : Bool
  repoRoot : Option String := none
deriving DecidableEq, Repr

/-- `canonicalIdFromUrl`: MD5 of the normalized remote URL. -/
def canonicalIdFromUrl (env : GitEnv) (normalizedUrl : String) : String :=
  env.md5 normalizedUrl

/-- `canonicalIdFromCommit`: MD5 of the initial commit SHA, salted with
the fixed `commit:` prefix to distinguish it from URL-based IDs. -/
def canonicalIdFromCommit (env : GitEnv) (commitSha : String) : String :=
  env.md5 ("commit:" ++ commitSha)

/-- `canonicalIdFromPath`: MD5 of a filesystem path (fallback). -/
def canonicalIdFromPath (env : GitEnv) (resolvedPath : String) : String :=
  env.md5 resolvedPath

/-- `extractDisplayName`: last URL segment, or the directory name. -/
def extractDisplayName (env : GitEnv) (remoteUrl : Option String) (repoPath : String) : String :=
  match remoteUrl with
  | some u =>
    let last := (u.splitOn "/").getLastD ""
    if last = "" then u else last
  | none => env.basename repoPath

/-- The normalized origin URL used by `resolveIdentity`: the raw URL
must be non-empty (truthy) and normalizable. -/
def originNormalizedUrl (env : GitEnv) (repoRoot : String) : Option String :=
  match getRemoteOriginUrl env repoRoot with
  | some u => if u = "" then none else normalizeGitUrl u
  | none => none

/-- The initial-commit SHA used by `resolveIdentity` (the empty string
is falsy in the TypeScript guard). -/
def truthyInitialCommit (env : GitEnv) (repoRoot : String) : Option String :=
  match getInitialCommitSha env repoRoot with
  | some s => if s = "" then none else some s
  | none => none

/-- Discovered paths of a repository: the repo root, the main worktree
path (for a worktree), and, when requested, every worktree listed by
git, deduplicated in insertion order. -/
def detectedPathsOf (env : GitEnv) (gitInfo : GitDetectionResult) (repoRoot : String)
    (includeWorktrees : Bool) : List String :=
  let paths0 := [repoRoot]
  let paths1 :=
    match (if gitInfo.isWorktree then gitInfo.mainGitDir else none) with
    | some mgd =>
      let mw := env.dirname mgd
      if mw ∈ paths0 then paths0 else paths0 ++ [mw]
    | none => paths0
  if includeWorktrees then
    (listWorktrees env repoRoot).foldl
      (fun acc wt => if wt ∈ acc then acc else acc ++ [wt]) paths1
  else paths1

/-- `resolveIdentity` from part_004: resolve the canonical identity of
the repository at `targetPath`, preferring the normalized remote URL,
then the initial-commit SHA, then a path hash. -/
def resolveIdentity (env : GitEnv) (fuel : Nat) (includeWorktrees : Bool)
    (targetPath : String) : RepoIdentity :=
  let resolvedPath := env.resolve targetPath
  let gitInfo := detectGitRepo env fuel resolvedPath
  if gitInfo.isGitRepo = false ∨ gitInfo.repoRoot = none then
    { canonicalId := canonicalIdFromPath env resolvedPath,
      detectedPaths := [resolvedPath],
      displayName := env.basename resolvedPath,
      identitySource := .pathHash,
      isGitRepo := false,
      isWorktree := false }
  else
    let repoRoot := gitInfo.repoRoot.getD ""
    let mainWorktreePath :=
      match (if gitInfo.isWorktree then gitInfo.mainGitDir else none) with
      | some mgd => some (env.dirname mgd)
      | none => none
    let detectedPaths := detectedPathsOf env gitInfo repoRoot includeWorktrees
    match originNormalizedUrl env repoRoot with
    | some normalizedUrl =>
      { canonicalId := canonicalIdFromUrl env normalizedUrl,
        remoteUrl := some normalizedUrl,
        mainWorktreePath := mainWorktreePath,
        detectedPaths := detectedPaths,
        displayName := extractDisplayName env (some normalizedUrl) repoRoot,
        identitySource := .remoteUrl,
        isGitRepo := true,
        isWorktree := gitInfo.isWorktree,
        repoRoot := some repoRoot }
    | none =>
      match truthyInitialCommit env repoRoot with
      | some initialCommit =>
        { canonicalId := canonicalIdFromCommit env initialCommit,
          mainWorktreePath := mainWorktreePath,
          detectedPaths := detectedPaths,
          displayName := extractDisplayName env none repoRoot,
          identitySource := .initialCommit,
          isGitRepo := true,
          isWorktree := gitInfo.isWorktree,
          repoRoot := some repoRoot }
      | none =>
        { canonicalId := canonicalIdFromPath env repoRoot,
          mainWorktreePath := mainWorktreePath,
          detectedPaths := detectedPaths,
          displayName := extractDisplayName env none repoRoot,
          identitySource := .pathHash,
          isGitRepo := true,
          isWorktree := gitInfo.isWorktree,
          repoRoot := some repoRoot }

/-! ## `repo-registry` (part_003): the repository registry -/

/-- `RepoRecord`: a registry entry, one per canonical ID. -/
structure RepoRecord where
  canonicalId : String
  displayName : String
  remoteUrl : Option String := none
  identitySource : IdentitySource
  knownPaths : List String
  worktrees : List String
  isIndexed : Bool
  collectionName : Option String := none
  lastIndexed : Option String := none
  indexedFiles : Option Nat := none
  totalChunks : Option Nat := none
deriving DecidableEq, Repr

/-- `ResolveResult`: the result of resolving a path in the registry. -/
structure ResolveResult where
  found : Bool
  record : Option RepoRecord := none
  identity : RepoIdentity
  isNewPathForExistingRepo : Bool
  primaryPath : Option String := none
deriving DecidableEq, Repr

/-- Options for `RepoRegistry.register` (absent fields are
`undefined`). -/
structure RegisterOptions where
  collectionName : Option String := none
  isIndexed : Option Bool := none
  indexedFiles : Option Nat := none
  totalChunks : Option Nat := none
deriving DecidableEq, Repr

/-- `RepoRegistry`: records keyed by canonical ID plus a path index. -/
structure RepoRegistry where
  repositories : List (String × RepoRecord) := []
  pathToCanonicalId : List (String × String) := []
deriving DecidableEq, Repr

/-- Number of registered repositories (`get size`). -/
def RepoRegistry.size (r : RepoRegistry) : Nat :=
  r.repositories.length

/-- `RepoRegistry.resolve`: resolve a filesystem path to its registry
record. The method only reads the registry, so it is returned
unchanged. -/
def RepoRegistry.resolve (env : GitEnv) (fuel : Nat) (r : RepoRegistry)
    (targetPath : String) : ResolveResult × RepoRegistry :=
  let normalizedPath := env.resolve targetPath
  let identity := resolveIdentity env fuel true normalizedPath
  let canonicalId := identity.canonicalId
  match alookup r.pathToCanonicalId normalizedPath with
  | some directCanonicalId =>
    let record := alookup r.repositories directCanonicalId
    ({ found := true, record := record, identity := identity,
       isNewPathForExistingRepo := false,
       primaryPath := record.bind (fun rec => rec.knownPaths.head?) }, r)
  | none =>
    match alookup r.repositories canonicalId with
    | some existingRecord =>
      ({ found := true, record := some existingRecord, identity := identity,
         isNewPathForExistingRepo := true,
         primaryPath := existingRecord.knownPaths.head? }, r)
    | none =>
      ({ found := false, identity := identity,
         isNewPathForExistingRepo := false }, r)

/-- `RepoRegistry.register`: add a path to an existing record for the
same canonical ID (overlaying any provided fields), or create a new
record. -/
def RepoRegistry.register (env : GitEnv) (fuel : Nat) (r : RepoRegistry)
    (targetPath : String) (options : RegisterOptions) : RepoRecord × RepoRegistry :=
  let normalizedPath := env.resolve targetPath
  let identity := resolveIdentity env fuel true normalizedPath
  let canonicalId := identity.canonicalId
  match alookup r.repositories canonicalId with
  | some record0 =>
    let addPath := normalizedPath ∉ record0.knownPaths
    let record1 :=
      if addPath then { record0 with knownPaths := record0.knownPaths ++ [normalizedPath] }
      else record0
    let paths1 :=
      if addPath then aset r.pathToCanonicalId normalizedPath canonicalId
      else r.pathToCanonicalId
    let record2 :=
      if identity.isWorktree ∧ normalizedPath ∉ record1.worktrees then
        { record1 with worktrees := record1.worktrees ++ [normalizedPath] }
      else record1
    let record3 :=
      match options.collectionName with
      | some c => { record2 with collectionName := some c }
      | none => record2
    let record4 :=
      match options.isIndexed with
      | some b =>
        if b then { record3 with isIndexed := b, lastIndexed := some env.now }
        else { record3 with isIndexed := b }
      | none => record3
    let record5 :=
      match options.indexedFiles with
      | some n => { record4 with indexedFiles := some n }
      | none => record4
    let record6 :=
      match options.totalChunks with
      | some n => { record5 with totalChunks := some n }
      | none => record5
    (record6,
     { repositories := aset r.repositories canonicalId record6,
       pathToCanonicalId := paths1 })
  | none =>
    let record : RepoRecord :=
      { canonicalId := canonicalId,
        displayName := identity.displayName,
        remoteUrl := identity.remoteUrl,
        identitySource := identity.identitySource,
        knownPaths := [normalizedPath],
        worktrees := if identity.isWorktree then [normalizedPath] else [],
        isIndexed := options.isIndexed.getD false,
        collectionName := options.collectionName,
        lastIndexed := if options.isIndexed.getD false then some env.now else none,
        indexedFiles := options.indexedFiles,
        totalChunks := options.totalChunks }
    (record,
     { repositories := aset r.repositories canonicalId record,
       pathToCanonicalId := aset r.pathToCanonicalId normalizedPath canonicalId })

/-- Well-formedness of a registry relative to an environment: the path
index only holds the canonical ID that identity resolution assigns to
that path. Every registry reachable by `register` from the empty one
with a fixed environment satisfies this. -/
def RepoRegistry.WF (env : GitEnv) (fuel : Nat) (r : RepoRegistry) : Prop :=
  ∀ p cid, alookup r.pathToCanonicalId p = some cid →
    cid = (resolveIdentity env fuel true p).canonicalId

/-! ## `collection-migrator.ts`: collection naming and migration -/

/-- A migration mapping from a legacy to a canonical collection name. -/
structure CollectionMigrationMapping where
  oldName : String
  newName : String
  canonicalId : String
  path : String
  createdAt : String
  migrated : Bool
  migratedAt : Option String := none
deriving DecidableEq, Repr

/-- Migration state persisted in `collection-migration.json` (the
`version` discriminator is the constant `v1`). -/
structure CollectionMigrationState where
  mappings : List CollectionMigrationMapping
  lastUpdated : String
deriving DecidableEq, Repr

/-- The caller-supplied part of a new mapping (the TypeScript
`Omit<CollectionMigrationMapping, 'createdAt' | 'migrated'>` as passed
by `resolveCollectionName`). -/
structure MappingInput where
  oldName : String
  newName : String
  canonicalId : String
  path : String
deriving DecidableEq, Repr

/-- `generateLegacyCollectionName`:
`[hybrid_]code_chunks_` + the first 8 hex chars of `md5(absolutePath)`. -/
def generateLegacyCollectionName (env : GitEnv) (codebasePath : String)
    (isHybrid : Bool) : String :=
  let normalizedPath := env.resolve codebasePath
  let hash := env.md5 normalizedPath
  (if isHybrid then "hybrid_code_chunks" else "code_chunks") ++ "_" ++ hash.take 8

/-- `generateCanonicalCollectionName`:
`[hybrid_]code_chunks_` + the first 12 hex chars of `md5(canonicalId)`. -/
def generateCanonicalCollectionName (env : GitEnv) (canonicalId : String)
    (isHybrid : Bool) : String :=
  let hash := env.md5 canonicalId
  (if isHybrid then "hybrid_code_chunks" else "code_chunks") ++ "_" ++ hash.take 12

/-- `generateCollectionNames`: both names plus the resolved identity. -/
def generateCollectionNames (env : GitEnv) (fuel : Nat) (codebasePath : String)
    (isHybrid : Bool) : String × String × RepoIdentity :=
  let identity := resolveIdentity env fuel true codebasePath
  (generateLegacyCollectionName env codebasePath isHybrid,
   generateCanonicalCollectionName env identity.canonicalId isHybrid,
   identity)

/-- The list update of `addMigrationMapping`: overwrite the first
mapping matching on `oldName` or `path` (keeping its `migratedAt`), or
append a fresh one. -/
def addMappingList (env : GitEnv) (mapping : MappingInput) :
    List CollectionMigrationMapping → List CollectionMigrationMapping
  | [] =>
    [{ oldName := mapping.oldName, newName := mapping.newName,
       canonicalId := mapping.canonicalId, path := mapping.path,
       createdAt := env.now, migrated := false }]
  | m :: rest =>
    if m.oldName = mapping.oldName ∨ m.path = mapping.path then
      { oldName := mapping.oldName, newName := mapping.newName,
        canonicalId := mapping.canonicalId, path := mapping.path,
        createdAt := env.now, migrated := false,
        migratedAt := m.migratedAt } :: rest
    else m :: addMappingList env mapping rest

/-- `addMigrationMapping` on the whole state. -/
def addMigrationMapping (env : GitEnv) (state : CollectionMigrationState)
    (mapping : MappingInput) : CollectionMigrationState :=
  { state with mappings := addMappingList env mapping state.mappings }

/-- Result of `resolveCollectionName`. -/
structure CollectionNameResolution where
  collectionName : String
  isLegacy : Bool
  identity : Option RepoIdentity := none
  legacyName : Option String := none
  canonicalName : Option String := none
deriving DecidableEq, Repr

/-- In-memory state of a `CollectionMigrator` (the migration file
writes in `saveMigrationState` do not change it). -/
structure CollectionMigrator where
  state : CollectionMigrationState
  existingCollections : List String
deriving DecidableEq, Repr

/-- `hasCollection`. -/
def CollectionMigrator.hasCollection (m : CollectionMigrator) (collectionName : String) : Bool :=
  collectionName ∈ m.existingCollections

/-- `resolveCollectionName`: keep a legacy collection when it exists
(recording a migration mapping), otherwise use the canonical name. -/
def CollectionMigrator.resolveCollectionName (env : GitEnv) (fuel : Nat)
    (m : CollectionMigrator) (codebasePath : String) (isHybrid : Bool) :
    CollectionNameResolution × CollectionMigrator :=
  let names := generateCollectionNames env fuel codebasePath isHybrid
  let legacyName := names.1
  let canonicalName := names.2.1
  let identity := names.2.2
  if m.hasCollection legacyName then
    let state2 := addMigrationMapping env m.state
      { oldName := legacyName, newName := canonicalName,
        canonicalId := identity.canonicalId, path := env.resolve codebasePath }
    ({ collectionName := legacyName, isLegacy := true, identity := some identity,
       legacyName := some legacyName, canonicalName := some canonicalName },
     { m with state := state2 })
  else if m.hasCollection canonicalName then
    ({ collectionName := canonicalName, isLegacy := false, identity := some identity,
       legacyName := some legacyName, canonicalName := some canonicalName }, m)
  else
    ({ collectionName := canonicalName, isLegacy := false, identity := some identity,
       legacyName := some legacyName, canonicalName := some canonicalName }, m)

/-! ## `snapshot.ts`: the snapshot store

The snapshot file lives in a one-file `World`; `writes` counts the
`saveCodebaseSnapshot` calls that reached the disk. Identity resolution
appears as `identify` (the underlying call of `safeResolveIdentity`,
`none` when it throws). -/

/-- Tag for `indexStatus` on an indexed codebase. -/
inductive IndexStatusTag
  | completed
  | limitReached
deriving DecidableEq, Repr

/-- `CodebaseInfo`: the v2 tagged union over
`indexed | indexing | indexfailed`. -/
inductive CodebaseInfo
  | indexed (indexedFiles : Nat) (totalChunks : Nat) (indexStatus : IndexStatusTag)
      (lastUpdated : String)
  | indexing (indexingPercentage : Nat) (lastUpdated : String)
  | indexfailed (errorMessage : String) (lastAttemptedPercentage : Option Nat)
      (lastUpdated : String)
deriving DecidableEq, Repr

/-- Branch status in the v3 format. -/
inductive BranchStatus
  | indexed
  | indexing
  | indexfailed
deriving DecidableEq, Repr

/-- The status discriminator of a `CodebaseInfo`. -/
def CodebaseInfo.status : CodebaseInfo → BranchStatus
  | .indexed _ _ _ _ => .indexed
  | .indexing _ _ => .indexing
  | .indexfailed _ _ _ => .indexfailed

/-- The `lastUpdated` field of a `CodebaseInfo`. -/
def CodebaseInfo.lastUpdated : CodebaseInfo → String
  | .indexed _ _ _ u => u
  | .indexing _ u => u
  | .indexfailed _ _ u => u

/-- `BranchSnapshot`: per-branch index state in the v3 format. -/
structure BranchSnapshot where
  status : BranchStatus
  indexedFiles : Nat
  totalChunks : Nat
  lastIndexed : String
  indexingPercentage : Option Nat := none
  errorMessage : Option String := none
deriving DecidableEq, Repr

/-- `RepoSnapshot`: a repository record in the v3 format. -/
structure RepoSnapshot where
  displayName : String
  remoteUrl : Option String := none
  identitySource : IdentitySource
  knownPaths : List String
  worktrees : List String
  branches : List (String × BranchSnapshot)
  defaultBranch : Option String := none
  lastIndexed : String
deriving DecidableEq, Repr

/-- The v1 `indexingCodebases` field: a legacy array or a progress
map. -/
inductive V1Indexing
  | arr (paths : List String)
  | obj (progress : List (String × Nat))
deriving DecidableEq, Repr

/-- The v1 on-disk snapshot format. -/
structure CodebaseSnapshotV1 where
  indexedCodebases : List String
  indexingCodebases : V1Indexing
  lastUpdated : String
deriving DecidableEq, Repr

/-- The v2 on-disk snapshot format. -/
structure CodebaseSnapshotV2 where
  codebases : List (String × CodebaseInfo)
  lastUpdated : String
deriving DecidableEq, Repr

/-- The v3 on-disk snapshot format. -/
structure CodebaseSnapshotV3 where
  repositories : List (String × RepoSnapshot)
  lastUpdated : String
deriving DecidableEq, Repr

/-- Content of the snapshot file: one of the three accepted formats, or
text that `JSON.parse` rejects. -/
inductive SnapshotFile
  | v1 (s : CodebaseSnapshotV1)
  | v2 (s : CodebaseSnapshotV2)
  | v3 (s : CodebaseSnapshotV3)
  | malformed
deriving DecidableEq, Repr

/-- Environment of the snapshot manager: path existence, identity
resolution (`none` when `resolveIdentity` throws), the Node `path`
module, MD5, and the clock. -/
structure SnapEnv where
  pathExists : String → Bool
  identify : String → Option RepoIdentity
  resolve : String → String
  basename : String → String
  md5 : String → String
  now : String

/-- The snapshot file plus a count of completed writes. -/
structure World where
  file : Option SnapshotFile
  writes : Nat
deriving DecidableEq, Repr

/-- In-memory state of a `SnapshotManager`. -/
structure ManagerState where
  indexedCodebases : List String := []
  indexingCodebases : List (String × Nat) := []
  codebaseFileCount : List (String × Nat) := []
  codebaseInfoMap : List (String × CodebaseInfo) := []
  repositories : List (String × RepoSnapshot) := []
  pathToCanonicalId : List (String × String) := []
deriving DecidableEq, Repr

/-- The state of a freshly-constructed `SnapshotManager`. -/
def emptyManagerState : ManagerState := {}

/-- `pathBasedCanonicalId`: fallback canonical ID when identity
resolution fails. -/
def pathBasedCanonicalId (env : SnapEnv) (codebasePath : String) : String :=
  env.md5 (env.resolve codebasePath)

/-- `createFallbackIdentity`. -/
def createFallbackIdentity (env : SnapEnv) (codebasePath : String) : RepoIdentity :=
  { canonicalId := pathBasedCanonicalId env codebasePath,
    detectedPaths := [codebasePath],
    displayName := env.basename codebasePath,
    identitySource := .pathHash,
    isGitRepo := false,
    isWorktree := false }

/-- The canonical ID the snapshot migration assigns to a path. -/
def snapCanonicalId (env : SnapEnv) (codebasePath : String) : String :=
  match env.identify codebasePath with
  | some i => i.canonicalId
  | none => pathBasedCanonicalId env codebasePath

/-- A repo group accumulated during v1/v2 migration. -/
structure RepoGroup where
  identity : RepoIdentity
  paths : List String
  info : CodebaseInfo
deriving DecidableEq, Repr

/-- One step of the v1 grouping loop: skip missing paths, then add the
path to its canonical group (the shared `info` of an existing group is
kept unchanged). -/
def migrateV1Step (env : SnapEnv) (groups : List (String × RepoGroup))
    (codebasePath : String) : List (String × RepoGroup) :=
  if env.pathExists codebasePath = false then groups
  else
    let canonicalId := snapCanonicalId env codebasePath
    let info : CodebaseInfo := .indexed 0 0 .completed env.now
    match alookup groups canonicalId with
    | some g =>
      aset groups canonicalId
        (if codebasePath ∈ g.paths then g else { g with paths := g.paths ++ [codebasePath] })
    | none =>
      groups ++ [(canonicalId,
        { identity := (env.identify codebasePath).getD (createFallbackIdentity env codebasePath),
          paths := [codebasePath], info := info })]

/-- The grouping phase of `migrateV1ToV3` (only `indexedCodebases` is
read; v1 `indexingCodebases` entries are never added to a group). -/
def migrateV1Groups (env : SnapEnv) (snapshot : CodebaseSnapshotV1) :
    List (String × RepoGroup) :=
  snapshot.indexedCodebases.foldl (migrateV1Step env) []

/-- One step of the v2 grouping loop: like v1, but an `indexed` info
upgrades a group whose info is not yet `indexed`. -/
def migrateV2Step (env : SnapEnv) (groups : List (String × RepoGroup))
    (entry : String × CodebaseInfo) : List (String × RepoGroup) :=
  if env.pathExists entry.1 = false then groups
  else
    let canonicalId := snapCanonicalId env entry.1
    match alookup groups canonicalId with
    | some g =>
      let g1 := if entry.1 ∈ g.paths then g else { g with paths := g.paths ++ [entry.1] }
      let g2 :=
        if entry.2.status = .indexed ∧ g1.info.status ≠ .indexed then
          { g1 with info := entry.2 }
        else g1
      aset groups canonicalId g2
    | none =>
      groups ++ [(canonicalId,
        { identity := (env.identify entry.1).getD (createFallbackIdentity env entry.1),
          paths := [entry.1], info := entry.2 })]

/-- The grouping phase of `migrateV2ToV3`. -/
def migrateV2Groups (env : SnapEnv) (snapshot : CodebaseSnapshotV2) :
    List (String × RepoGroup) :=
  snapshot.codebases.foldl (migrateV2Step env) []

/-- `populateLegacyStateFromRepo`: derive the per-path legacy views
(indexed list, indexing-progress map, per-path `CodebaseInfo`) for each
known path from the default branch of a v3 record. -/
def populateLegacyStateFromRepo (repo : RepoSnapshot) (s : ManagerState) : ManagerState :=
  match alookup repo.branches (repo.defaultBranch.getD "default") with
  | none => s
  | some b =>
    repo.knownPaths.foldl (fun st p =>
      match b.status with
      | .indexed =>
        let info : CodebaseInfo := .indexed b.indexedFiles b.totalChunks .completed b.lastIndexed
        { st with
          indexedCodebases :=
            if p ∈ st.indexedCodebases then st.indexedCodebases
            else st.indexedCodebases ++ [p],
          codebaseFileCount := aset st.codebaseFileCount p b.indexedFiles,
          codebaseInfoMap := aset st.codebaseInfoMap p info }
      | .indexing =>
        let pct := b.indexingPercentage.getD 0
        let info : CodebaseInfo := .indexing pct b.lastIndexed
        { st with
          indexingCodebases := aset st.indexingCodebases p pct,
          codebaseInfoMap := aset st.codebaseInfoMap p info }
      | .indexfailed =>
        let msg :=
          match b.errorMessage with
          | some m => if m = "" then "Unknown error" else m
          | none => "Unknown error"
        let info : CodebaseInfo := .indexfailed msg none b.lastIndexed
        { st with codebaseInfoMap := aset st.codebaseInfoMap p info }) s

/-- The per-path loop body of `populateLegacyStateFromRepo`, factored
out (it is definitionally the inline lambda above). -/
def populateStep (b : BranchSnapshot) (st : ManagerState) (p : String) : ManagerState :=
  match b.status with
  | .indexed =>
    let info : CodebaseInfo := .indexed b.indexedFiles b.totalChunks .completed b.lastIndexed
    { st with
      indexedCodebases :=
        if p ∈ st.indexedCodebases then st.indexedCodebases
        else st.indexedCodebases ++ [p],
      codebaseFileCount := aset st.codebaseFileCount p b.indexedFiles,
      codebaseInfoMap := aset st.codebaseInfoMap p info }
  | .indexing =>
    let pct := b.indexingPercentage.getD 0
    let info : CodebaseInfo := .indexing pct b.lastIndexed
    { st with
      indexingCodebases := aset st.indexingCodebases p pct,
      codebaseInfoMap := aset st.codebaseInfoMap p info }
  | .indexfailed =>
    let msg :=
      match b.errorMessage with
      | some m => if m = "" then "Unknown error" else m
      | none => "Unknown error"
    let info : CodebaseInfo := .indexfailed msg none b.lastIndexed
    { st with codebaseInfoMap := aset st.codebaseInfoMap p info }

/-- The `BranchSnapshot` built from a group's `CodebaseInfo` during
v1/v2 migration. -/
def branchSnapshotOfInfo (info : CodebaseInfo) : BranchSnapshot :=
  { status := info.status,
    indexedFiles := match info with | .indexed f _ _ _ => f | _ => 0,
    totalChunks := match info with | .indexed _ t _ _ => t | _ => 0,
    lastIndexed := info.lastUpdated,
    indexingPercentage := match info with | .indexing pct _ => some pct | _ => none,
    errorMessage := match info with | .indexfailed msg _ _ => some msg | _ => none }

/-- The `RepoSnapshot` built from a group during v1/v2 migration. -/
def repoSnapshotOfGroup (env : SnapEnv) (g : RepoGroup) : RepoSnapshot :=
  { displayName := g.identity.displayName,
    remoteUrl := g.identity.remoteUrl,
    identitySource := g.identity.identitySource,
    knownPaths := g.paths,
    worktrees := g.paths.filter (fun p =>
      match env.identify p with
      | some i => i.isWorktree
      | none => false),
    branches := [("default", branchSnapshotOfInfo g.info)],
    defaultBranch := some "default",
    lastIndexed := env.now }

/-- `buildV3StateFromGroups`: clear the state, then install every group
as a v3 record, the path lookups, and the derived legacy views. -/
def buildV3StateFromGroups (env : SnapEnv) (groups : List (String × RepoGroup)) :
    ManagerState :=
  groups.foldl (fun st e =>
    let repoSnapshot := repoSnapshotOfGroup env e.2
    let st1 := { st with
      repositories := aset st.repositories e.1 repoSnapshot,
      pathToCanonicalId :=
        e.2.paths.foldl (fun m p => aset m p e.1) st.pathToCanonicalId }
    populateLegacyStateFromRepo repoSnapshot st1) emptyManagerState

/-- `migrateV1ToV3`. -/
def migrateV1ToV3 (env : SnapEnv) (snapshot : CodebaseSnapshotV1) : ManagerState :=
  buildV3StateFromGroups env (migrateV1Groups env snapshot)

/-- `migrateV2ToV3`. -/
def migrateV2ToV3 (env : SnapEnv) (snapshot : CodebaseSnapshotV2) : ManagerState :=
  buildV3StateFromGroups env (migrateV2Groups env snapshot)

/-- `loadV3Format`: install a v3 snapshot, dropping paths that no
longer exist and records with no surviving path. -/
def loadV3Format (env : SnapEnv) (snapshot : CodebaseSnapshotV3) : ManagerState :=
  snapshot.repositories.foldl (fun st e =>
    let validPaths := e.2.knownPaths.filter env.pathExists
    if validPaths = [] then st
    else
      let updated := { e.2 with
        knownPaths := validPaths,
        worktrees := e.2.worktrees.filter (fun w => w ∈ validPaths) }
      let st1 := { st with
        repositories := aset st.repositories e.1 updated,
        pathToCanonicalId :=
          validPaths.foldl (fun m p => aset m p e.1) st.pathToCanonicalId }
      populateLegacyStateFromRepo updated st1) emptyManagerState

/-- `saveCodebaseSnapshot`: serialize the in-memory repositories as a
v3 snapshot in a single write. -/
def saveCodebaseSnapshot (env : SnapEnv) (w : World) (s : ManagerState) : World :=
  { file := some (.v3 { repositories := s.repositories, lastUpdated := env.now }),
    writes := w.writes + 1 }

/-- `loadCodebaseSnapshot`: dispatch on the on-disk format, migrate
v1/v2 (or filter v3), then write back v3 once. A missing file or a
`JSON.parse` failure leaves the (empty) state untouched and writes
nothing. -/
def loadCodebaseSnapshot (env : SnapEnv) (w : World) (s : ManagerState) :
    World × ManagerState :=
  match w.file with
  | none => (w, s)
  | some .malformed => (w, s)
  | some (.v1 v) =>
    let s2 := migrateV1ToV3 env v
    (saveCodebaseSnapshot env w s2, s2)
  | some (.v2 v) =>
    let s2 := migrateV2ToV3 env v
    (saveCodebaseSnapshot env w s2, s2)
  | some (.v3 v) =>
    let s2 := loadV3Format env v
    (saveCodebaseSnapshot env w s2, s2)

/-- `getIndexedCodebases`: the legacy flat list of indexed paths, read
from the snapshot file (falling back to memory on a read error). -/
def getIndexedCodebases (w : World) (s : ManagerState) : List String :=
  match w.file with
  | none => []
  | some (.v3 v) =>
    v.repositories.foldl (fun acc e =>
      match alookup e.2.branches (e.2.defaultBranch.getD "default") with
      | some b => if b.status = .indexed then acc ++ e.2.knownPaths else acc
      | none => acc) []
  | some (.v2 v) =>
    (v.codebases.filter (fun e => e.2.status = .indexed)).map (fun e => e.1)
  | some (.v1 v) => v.indexedCodebases
  | some .malformed => s.indexedCodebases

/-- `getIndexingCodebases`: the legacy list of paths being indexed,
read from the snapshot file. -/
def getIndexingCodebases (w : World) (s : ManagerState) : List String :=
  match w.file with
  | none => []
  | some (.v3 v) =>
    v.repositories.foldl (fun acc e =>
      match alookup e.2.branches (e.2.defaultBranch.getD "default") with
      | some b => if b.status = .indexing then acc ++ e.2.knownPaths else acc
      | none => acc) []
  | some (.v2 v) =>
    (v.codebases.filter (fun e => e.2.status = .indexing)).map (fun e => e.1)
  | some (.v1 v) =>
    match v.indexingCodebases with
    | .arr paths => paths
    | .obj progress => progress.map (fun e => e.1)
  | some .malformed => s.indexingCodebases.map (fun e => e.1)

/-- `getCodebaseInfo`: the per-path `CodebaseInfo` legacy view (an
in-memory read). -/
def getCodebaseInfo (s : ManagerState) (codebasePath : String) : Option CodebaseInfo :=
  alookup s.codebaseInfoMap codebasePath

/-- The per-path legacy `CodebaseInfo` that `populateLegacyStateFromRepo`
derives from a v3 branch snapshot: a `limitReached` index status
collapses to `completed`, an `indexfailed` branch's
`lastAttemptedPercentage` is not reconstructed, and an empty error
message becomes the fallback text. -/
def legacyInfoOfBranch (b : BranchSnapshot) : CodebaseInfo :=
  match b.status with
  | .indexed => .indexed b.indexedFiles b.totalChunks .completed b.lastIndexed
  | .indexing => .indexing (b.indexingPercentage.getD 0) b.lastIndexed
  | .indexfailed =>
    .indexfailed
      (match b.errorMessage with
       | some m => if m = "" then "Unknown error" else m
       | none => "Unknown error") none b.lastIndexed

/-- The round trip a migrated `CodebaseInfo` takes through the v3
branch snapshot and back into the per-path legacy view. -/
def legacyViewInfo (info : CodebaseInfo) : CodebaseInfo :=
  legacyInfoOfBranch (branchSnapshotOfInfo info)

/-- The loop body of `buildV3StateFromGroups`, factored out. -/
def buildStep (env : SnapEnv) (st : ManagerState) (e : String × RepoGroup) : ManagerState :=
  let repoSnapshot := repoSnapshotOfGroup env e.2
  let st1 := { st with
    repositories := aset st.repositories e.1 repoSnapshot,
    pathToCanonicalId :=
      e.2.paths.foldl (fun m p => aset m p e.1) st.pathToCanonicalId }
  populateLegacyStateFromRepo repoSnapshot st1

/-! ## `middleware/auth.ts`, `middleware/rate-limit.ts`, and the HTTP
request handler (part_002) -/

/-- The parts of an incoming HTTP request the middleware reads. -/
structure HttpRequest where
  method : String
  path : String
  authorization : Option String := none
  xForwardedFor : Option String := none
  remoteAddr : Option String := none
deriving DecidableEq, Repr

/-- Body classes of the responses the transport writes. -/
inductive RespBody
  | empty
  | health
  | unauthorized (msg : String)
  | tooManyRequests
  | notFound
  | mcp
deriving DecidableEq, Repr

/-- An HTTP response: status, accumulated headers, body class. -/
structure HttpResponse where
  status : Nat
  headers : List (String × String)
  body : RespBody
deriving DecidableEq, Repr

/-- `AuthMiddleware` configuration. -/
structure AuthMiddleware where
  token : String
  excludePaths : List String := ["/health"]
deriving DecidableEq, Repr

/-- `AuthResult`. -/
structure AuthResult where
  authenticated : Bool
  error : Option String := none
  statusCode : Option Nat := none
deriving DecidableEq, Repr

/-- `requiresAuth`: every path outside the exclude set needs a token. -/
def AuthMiddleware.requiresAuth (mw : AuthMiddleware) (pathname : String) : Bool :=
  !(mw.excludePaths.contains pathname)

/-- `authenticate`: require an `Authorization: Bearer <token>` header
with exactly the expected token. -/
def AuthMiddleware.authenticate (mw : AuthMiddleware) (req : HttpRequest) : AuthResult :=
  match req.authorization with
  | none =>
    { authenticated := false, error := some "Authorization header required",
      statusCode := some 401 }
  | some authHeader =>
    let parts := jsSplit ' ' authHeader
    if parts.length ≠ 2 ∨ jsToLower (parts.headD "") ≠ "bearer" then
      { authenticated := false,
        error := some "Invalid authorization format. Use: Bearer <token>",
        statusCode := some 401 }
    else if parts.getD 1 "" ≠ mw.token then
      { authenticated := false, error := some "Invalid token", statusCode := some 401 }
    else
      { authenticated := true }

/-- `handleUnauthorized`: a 401 response carrying the
`WWW-Authenticate` challenge, on top of the headers already set. -/
def handleUnauthorized (result : AuthResult) (priorHeaders : List (String × String)) :
    HttpResponse :=
  { status := result.statusCode.getD 401,
    headers := priorHeaders ++
      [("Content-Type", "application/json"),
       ("WWW-Authenticate", "Bearer realm=\"MCP Server\"")],
    body := .unauthorized (result.error.getD "") }

/-- `getClientIp`: the first comma-separated entry of
`X-Forwarded-For` (trimmed), else the socket address. -/
def getClientIp (req : HttpRequest) : String :=
  match req.xForwardedFor with
  | some forwardedFor => jsTrimS ((jsSplit ',' forwardedFor).headD "")
  | none => req.remoteAddr.getD "unknown"

/-- The CLI transport modes. -/
inductive TransportMode
  | stdio
  | http
  | both
deriving DecidableEq, Repr

/-- `validateAuthToken`: with a network transport enabled, a missing or
blank `MCP_AUTH_TOKEN` exits the process with configuration-error
status 2 (modelled as `Except.error 2`). -/
def validateAuthToken (transportMode : TransportMode) (envToken : Option String) :
    Except Nat (Option String) :=
  match transportMode with
  | .stdio => .ok none
  | _ =>
    match envToken with
    | none => .error 2
    | some token => if jsTrimS token = "" then .error 2 else .ok (some token)

/-- An entry of the rate-limit table. -/
structure RateLimitEntry where
  count : Nat
  resetTime : Nat
deriving DecidableEq, Repr

/-- `RateLimitResult` (`remaining` can go negative in JavaScript). -/
structure RateLimitResult where
  allowed : Bool
  remaining : Int
  retryAfter : Option Nat := none
deriving DecidableEq, Repr

/-- `RateLimiter` state. -/
structure RateLimiter where
  requestsPerMinute : Nat
  windowMs : Nat
  excludePaths : List String
  limits : List (String × RateLimitEntry)
deriving DecidableEq, Repr

/-- The `RateLimiter` constructor: explicit option, else the
`MCP_RATE_LIMIT` environment variable, else 60; fixed 60 s window. -/
def mkRateLimiter (requestsPerMinute : Option Nat) (envRateLimit : Option Nat) :
    RateLimiter :=
  { requestsPerMinute := requestsPerMinute.getD (envRateLimit.getD 60),
    windowMs := 60 * 1000,
    excludePaths := ["/health"],
    limits := [] }

/-- `shouldLimit`. -/
def RateLimiter.shouldLimit (rl : RateLimiter) (pathname : String) : Bool :=
  !(rl.excludePaths.contains pathname)

/-- `check`: fixed-window counting per client address. A fresh (or
expired) entry restarts the window at `now`; otherwise the counter is
incremented and compared against the budget. -/
def RateLimiter.check (rl : RateLimiter) (now : Nat) (clientIp : String) :
    RateLimitResult × RateLimiter :=
  match alookup rl.limits clientIp with
  | none =>
    ({ allowed := true, remaining := (rl.requestsPerMinute : Int) - 1 },
     { rl with limits := aset rl.limits clientIp { count := 1, resetTime := now + rl.windowMs } })
  | some entry =>
    if now ≥ entry.resetTime then
      ({ allowed := true, remaining := (rl.requestsPerMinute : Int) - 1 },
       { rl with limits := aset rl.limits clientIp { count := 1, resetTime := now + rl.windowMs } })
    else
      let count2 := entry.count + 1
      let rl2 := { rl with limits := aset rl.limits clientIp { entry with count := count2 } }
      if count2 > rl.requestsPerMinute then
        ({ allowed := false, remaining := 0,
           retryAfter := some ((entry.resetTime - now + 999) / 1000) }, rl2)
      else
        ({ allowed := true, remaining := (rl.requestsPerMinute : Int) - (count2 : Int) }, rl2)

/-- `addHeaders`: attach the `X-RateLimit-*` headers (`X-RateLimit-Reset`
only for a truthy `retryAfter`). -/
def RateLimiter.addHeaders (rl : RateLimiter) (result : RateLimitResult)
    (priorHeaders : List (String × String)) : List (String × String) :=
  priorHeaders ++
    [("X-RateLimit-Limit", toString rl.requestsPerMinute),
     ("X-RateLimit-Remaining", toString result.remaining)] ++
    (match result.retryAfter with
     | some ra => if ra = 0 then [] else [("X-RateLimit-Reset", toString ra)]
     | none => [])

/-- `handleLimited`: a 429 response with `Retry-After` and the
`X-RateLimit-*` headers. -/
def RateLimiter.handleLimited (rl : RateLimiter) (result : RateLimitResult)
    (priorHeaders : List (String × String)) : HttpResponse :=
  { status := 429,
    headers := priorHeaders ++
      [("Content-Type", "application/json"),
       ("Retry-After", toString (result.retryAfter.getD 60)),
       ("X-RateLimit-Limit", toString rl.requestsPerMinute),
       ("X-RateLimit-Remaining", "0"),
       ("X-RateLimit-Reset", toString (result.retryAfter.getD 60))],
    body := .tooManyRequests }

/-- The request callback of `HttpTransport` (part_002): CORS headers on
every response, preflight `OPTIONS` answered immediately, then
authentication, then rate limiting, then dispatch to `/health`, `/mcp`
(the session layer, abstracted as `mcpRespond`) or 404. -/
def handleRequest (auth : Option AuthMiddleware) (rl : RateLimiter) (now : Nat)
    (corsOrigin : String) (mcpRespond : HttpRequest → HttpResponse)
    (req : HttpRequest) : HttpResponse × RateLimiter :=
  let cors := [("Access-Control-Allow-Origin", corsOrigin),
               ("Access-Control-Allow-Methods", "GET, POST, DELETE, OPTIONS"),
               ("Access-Control-Allow-Headers", "Content-Type, Authorization, Mcp-Session-Id")]
  if req.method = "OPTIONS" then
    ({ status := 204, headers := cors, body := .empty }, rl)
  else
    let clientIp := getClientIp req
    let authFailure : Option AuthResult :=
      match auth with
      | some mw =>
        if mw.requiresAuth req.path then
          let r := mw.authenticate req
          if r.authenticated then none else some r
        else none
      | none => none
    match authFailure with
    | some r => (handleUnauthorized r cors, rl)
    | none =>
      let dispatch : List (String × String) → RateLimiter → HttpResponse × RateLimiter :=
        fun hdrs rl2 =>
          if req.path = "/health" then
            ({ status := 200, headers := hdrs ++ [("Content-Type", "application/json")],
               body := .health }, rl2)
          else if req.path = "/mcp" then
            (mcpRespond req, rl2)
          else
            ({ status := 404, headers := hdrs ++ [("Content-Type", "application/json")],
               body := .notFound }, rl2)
      if rl.shouldLimit req.path then
        let res := rl.check now clientIp
        let hdrs2 := rl.addHeaders res.1 cors
        if res.1.allowed then dispatch hdrs2 res.2
        else (rl.handleLimited res.1 hdrs2, res.2)
      else dispatch cors rl

/-! ## Cross-repository search engine (`search_all`)

The engine lives in `handlers.ts`, which is not part of the provided
sources (only the tool schema and the dispatch in `server.ts` are); the
definitions below are modelled from the specification, section 4.G. -/

/-- A raw hit returned by one collection of the vector store. -/
structure SearchHit where
  relativePath : String
  startLine : Nat
  endLine : Nat
  language : String
  content : String
  score : Rat
deriving DecidableEq, Repr

/-- Outcome of one per-collection search under its 5 s budget. -/
inductive CollectionOutcome
  | success (hits : List SearchHit)
  | timeout
  | failure
deriving DecidableEq, Repr

/-- One merged `search_all` result with repository attribution. -/
structure SearchAllResult where
  repoDisplayName : String
  canonicalRepoId : String
  relativePath : String
  startLine : Nat
  endLine : Nat
  language : String
  content : String
  score : Rat
  sourceCollection : String
  normalizationMode : String
deriving DecidableEq, Repr

/-- The `search_all` response summary. -/
structure SearchAllSummary where
  collectionsQueried : Nat
  collectionsSkippedByTimeout : Nat
  collectionsFailed : Nat
  totalResults : Nat
deriving DecidableEq, Repr

/-- The `search_all` response. -/
structure SearchAllResponse where
  results : List SearchAllResult
  summary : SearchAllSummary
deriving DecidableEq, Repr

/-- Environment of the engine: the vector store's live collection
enumeration and, for a fixed query and extension filter, each
collection's outcome. -/
structure SearchEnv where
  storeCollections : List String
  outcome : String → CollectionOutcome

/-- Modelled from the spec: discovery and filtering of fan-out targets
for `search_all` (handlers.ts is not in the provided sources).
Per section 4.G, two sources are always merged and deduplicated by
collection name: the collections referenced by the registry's indexed
records, and the store's live enumeration — the latter also yields
collections with no matching registry record ("repos indexed outside
the current process's snapshot").  Each target carries the indexed
registry record it is attributed to, when one references it.  The
optional `repos` selectors (display name or canonical ID) restrict the
set before fan-out; a store-only collection has no display name or
canonical ID to match, so a non-empty selector list excludes it. -/
def searchAllTargets (registry : List RepoRecord) (storeCollections : List String)
    (repos : List String) : List (String × Option RepoRecord) :=
  let indexed := registry.filter (fun r => r.isIndexed)
  let fromRegistry := indexed.filterMap (fun r =>
    r.collectionName.map (fun c => ((c, some r) : String × Option RepoRecord)))
  let fromStore := storeCollections.map (fun c =>
    ((c, indexed.find? (fun r => r.collectionName = some c)) : String × Option RepoRecord))
  let merged := (fromRegistry ++ fromStore).foldl
    (fun acc t => if acc.any (fun u => u.1 = t.1) then acc else acc ++ [t]) []
  if repos = [] then merged
  else merged.filter (fun t =>
    match t.2 with
    | some r => r.displayName ∈ repos ∨ r.canonicalId ∈ repos
    | none => false)

/-- A normalized hit attributed to its source repository (Option A,
raw-score normalization, is the default policy).  For a collection with
no attributing registry record the only attribution datum the provided
sources offer is the collection name itself, which therefore fills both
display-name and canonical-ID fields. -/
def attributeHit (t : String × Option RepoRecord) (h : SearchHit) : SearchAllResult :=
  { repoDisplayName := match t.2 with | some r => r.displayName | none => t.1,
    canonicalRepoId := match t.2 with | some r => r.canonicalId | none => t.1,
    relativePath := h.relativePath,
    startLine := h.startLine,
    endLine := h.endLine,
    language := h.language,
    content := h.content,
    score := h.score,
    sourceCollection := t.1,
    normalizationMode := "raw" }

/-- The merge order of `search_all`: score descending, with the stable
tiebreak on `(repoDisplayName, relativePath, startLine)`. -/
def searchSortKey (r : SearchAllResult) : Rat ×ₗ (String ×ₗ (String ×ₗ Nat)) :=
  toLex (-r.score, toLex (r.repoDisplayName, toLex (r.relativePath, r.startLine)))

/-- The sort relation of the merge phase. -/
def searchAllLe (a b : SearchAllResult) : Prop :=
  searchSortKey a ≤ searchSortKey b

instance : DecidableRel searchAllLe := fun a b =>
  inferInstanceAs (Decidable (searchSortKey a ≤ searchSortKey b))

instance : IsTotal SearchAllResult searchAllLe :=
  ⟨fun a b => le_total (searchSortKey a) (searchSortKey b)⟩

instance : IsTrans SearchAllResult searchAllLe :=
  ⟨fun _ _ _ h1 h2 => le_trans h1 h2⟩

/-- Modelled from the spec: the `search_all` engine of `handlers.ts`
(not in the provided sources). Fan out to every target; a timed-out or
failed collection is skipped and counted in the summary; surviving
results are normalized (raw mode), concatenated, sorted by score
descending with the stable tiebreak, and truncated to `limit`. The
summary's `collectionsQueried` is the number of fan-out targets. -/
def handleSearchAll (env : SearchEnv) (registry : List RepoRecord)
    (repos : List String) (limit : Nat) : SearchAllResponse :=
  let targets := searchAllTargets registry env.storeCollections repos
  let outcomes := targets.map (fun t => (t, env.outcome t.1))
  let skipped := (outcomes.filter (fun o =>
    match o.2 with
    | .timeout => true
    | _ => false)).length
  let failed := (outcomes.filter (fun o =>
    match o.2 with
    | .failure => true
    | _ => false)).length
  let raw := outcomes.foldl (fun acc o =>
    match o.2 with
    | .success hits => acc ++ hits.map (attributeHit o.1)
    | _ => acc) []
  let results := (raw.insertionSort searchAllLe).take limit
  { results := results,
    summary :=
      { collectionsQueried := targets.length,
        collectionsSkippedByTimeout := skipped,
        collectionsFailed := failed,
        totalResults := results.length } }

/-- Iterate `RateLimiter.check` over a list of request times from one
client address, collecting the per-request results. -/
def RateLimiter.checkSeq (rl : RateLimiter) (ip : String) :
    List Nat → RateLimiter × List RateLimitResult
  | [] => (rl, [])
  | t :: ts =>
    let res := rl.check t ip
    let rest := res.2.checkSeq ip ts
    (rest.1, res.1 :: rest.2)

/-! ## Helper lemmas -/

theorem alookup_aset_self {β : Type} (m : List (String × β)) (k : String) (v : β) :
    alookup (aset m k v) k = some v := by
  induction m with
  | nil => simp [aset, alookup]
  | cons e rest ih =>
    by_cases h : e.1 = k
    · simp [aset, alookup, h]
    · simp [aset, alookup, h, ih]

theorem alookup_aset_ne {β : Type} (m : List (String × β)) (k k2 : String) (v : β)
    (h : k ≠ k2) : alookup (aset m k v) k2 = alookup m k2 := by
  induction m with
  | nil => simp [aset, alookup, h]
  | cons e rest ih =>
    by_cases he : e.1 = k
    · simp [aset, alookup, he, h]
    · simp only [aset, alookup, if_neg he]
      by_cases he2 : e.1 = k2
      · simp [he2]
      · simp [he2, ih]

theorem alookup_append {β : Type} (m1 m2 : List (String × β)) (k : String) :
    alookup (m1 ++ m2) k = ((alookup m1 k).rec (alookup m2 k) (fun v => some v)) := by
  induction m1 with
  | nil => simp [alookup]
  | cons e rest ih =>
    by_cases h : e.1 = k
    · simp [alookup, h]
    · simp [alookup, h, ih]

theorem aset_of_alookup_none {β : Type} (m : List (String × β)) (k : String) (v : β)
    (h : alookup m k = none) : aset m k v = m ++ [(k, v)] := by
  induction m with
  | nil => simp [aset]
  | cons e rest ih =>
    by_cases he : e.1 = k
    · simp [alookup, he] at h
    · simp only [alookup, if_neg he] at h
      simp [aset, he, ih h]

/-! ## C6: snapshot corruption on read -/

/-- C6: when the snapshot file on disk is malformed (content that
`JSON.parse` rejects), `loadCodebaseSnapshot` does not propagate an
error: the freshly-constructed manager keeps its empty state, and
nothing is written back. -/
theorem loadSnapshot_malformed_startsEmpty (env : SnapEnv) (n : Nat) :
    loadCodebaseSnapshot env { file := some .malformed, writes := n } emptyManagerState =
      ({ file := some .malformed, writes := n }, emptyManagerState) := rfl

/-! ## C10: unreadable or unparseable worktree pointer files -/

/-- C10: when the enclosing `.git` entry is a file whose content cannot
be read or does not match the `gitdir: <path>` pointer format,
`detectGitRepo` does not fail: it reports a regular (non-worktree)
repository rooted at the directory containing that `.git` file. -/
theorem detectGitRepo_badPointer_regularRepo (env : GitEnv) (fuel : Nat) (p gp : String)
    (hfind : findGitPath env fuel (env.resolve p) = some (gp, true))
    (hbad : env.readFile gp = none ∨
      ∃ content, env.readFile gp = some content ∧ parseGitdirPointer content = none) :
    detectGitRepo env fuel p =
      { isGitRepo := true, repoRoot := some (env.dirname gp), isWorktree := false,
        gitPath := some gp } := by
  unfold detectGitRepo
  simp only [hfind]
  rcases hbad with hnone | ⟨content, hc, hparse⟩
  · simp [hnone]
  · simp [hc, hparse]

/-- Environment for the C10 witness: `/r/.git` is a file containing
text that is not a `gitdir:` pointer. -/
def envC10 : GitEnv :=
  { resolve := id,
    dirname := fun s => if s = "/r/.git" then "/r" else "/",
    basename := id,
    join2 := fun a b => a ++ "/" ++ b,
    rootOf := fun _ => "/",
    resolveUp2 := id,
    stat := fun s => if s = "/r/.git" then some .file else none,
    readFile := fun s => if s = "/r/.git" then some "garbage" else none,
    runGit := fun _ _ => none,
    md5 := id,
    now := "now",
    pathExists := fun _ => true }

/-- Witness for C10 at a concrete filesystem. -/
theorem detectGitRepo_badPointer_regularRepo_witness :
    detectGitRepo envC10 1 "/r" =
      { isGitRepo := true, repoRoot := some "/r", isWorktree := false,
        gitPath := some "/r/.git" } :=
  detectGitRepo_badPointer_regularRepo envC10 1 "/r" "/r/.git" (by decide)
    (Or.inr ⟨"garbage", by decide, by decide⟩)

/-! ## C1: resolving a second path of a registered repository -/

/-- C1: if the canonical ID resolved for a path `p2` is already
registered (as happens after registering any path `p1` with that ID),
then `resolve(p2)` finds the existing record, reports
`isNewPathForExistingRepo` exactly when `p2` itself is not in the path
index, and leaves the number of registered repositories unchanged. -/
theorem repoRegistry_resolve_existing (env : GitEnv) (fuel : Nat) (r : RepoRegistry)
    (p2 : String) (rec : RepoRecord)
    (hwf : RepoRegistry.WF env fuel r)
    (hreg : alookup r.repositories
      (resolveIdentity env fuel true (env.resolve p2)).canonicalId = some rec) :
    (RepoRegistry.resolve env fuel r p2).1.found = true ∧
    (RepoRegistry.resolve env fuel r p2).1.record = some rec ∧
    ((RepoRegistry.resolve env fuel r p2).1.isNewPathForExistingRepo = true ↔
      alookup r.pathToCanonicalId (env.resolve p2) = none) ∧
    (RepoRegistry.resolve env fuel r p2).2.size = r.size := by
  cases hdir : alookup r.pathToCanonicalId (env.resolve p2) with
  | some directId =>
    have hid := hwf (env.resolve p2) directId hdir
    refine ⟨?_, ?_, ?_, ?_⟩ <;> simp [RepoRegistry.resolve, hdir, hid, hreg]
  | none =>
    refine ⟨?_, ?_, ?_, ?_⟩ <;> simp [RepoRegistry.resolve, hdir, hreg]

/-- Environment for the C1 witness: nothing is a git repository and the
hash is constant, so every path resolves to the canonical ID `ID`. -/
def envC1 : GitEnv :=
  { resolve := id,
    dirname := fun _ => "/",
    basename := id,
    join2 := fun a b => a ++ "/" ++ b,
    rootOf := fun _ => "/",
    resolveUp2 := id,
    stat := fun _ => none,
    readFile := fun _ => none,
    runGit := fun _ _ => none,
    md5 := fun _ => "ID",
    now := "now",
    pathExists := fun _ => true }

/-- The record registered for the C1 witness. -/
def recC1 : RepoRecord :=
  { canonicalId := "ID", displayName := "a", identitySource := .pathHash,
    knownPaths := ["/a"], worktrees := [], isIndexed := true }

/-- The registry for the C1 witness: `/a` registered under `ID`. -/
def regC1 : RepoRegistry :=
  { repositories := [("ID", recC1)], pathToCanonicalId := [("/a", "ID")] }

/-- Witness for C1: resolving the unregistered path `/b`, which shares
the canonical ID of the registered `/a`. -/
theorem repoRegistry_resolve_existing_witness :
    (RepoRegistry.resolve envC1 1 regC1 "/b").1.found = true ∧
    (RepoRegistry.resolve envC1 1 regC1 "/b").1.record = some recC1 ∧
    ((RepoRegistry.resolve envC1 1 regC1 "/b").1.isNewPathForExistingRepo = true ↔
      alookup regC1.pathToCanonicalId (envC1.resolve "/b") = none) ∧
    (RepoRegistry.resolve envC1 1 regC1 "/b").2.size = regC1.size :=
  repoRegistry_resolve_existing envC1 1 regC1 "/b" recC1
    (by
      intro p cid h
      by_cases hpa : "/a" = p
      · have hcid : cid = "ID" := by
          simp [regC1, alookup, hpa] at h
          exact h.symm
        subst hcid
        rw [← hpa]
        decide
      · simp [regC1, alookup, hpa] at h)
    (by decide)

/-! ## C2: first-success-wins canonical ID derivation -/

/-- C2: `resolveIdentity` derives the canonical ID by first success
wins: a normalized origin URL gives a `remote-url` identity hashing the
URL; else a root commit gives an `initial-commit` identity hashing the
SHA salted with the fixed `commit:` prefix; else the repository root is
path-hashed (so a git repository with zero commits is not an error);
and a non-git path yields a path-hash identity whose `detectedPaths` is
exactly that path. -/
theorem resolveIdentity_firstSuccessWins (env : GitEnv) (fuel : Nat) (iw : Bool) (p : String) :
    ((detectGitRepo env fuel (env.resolve p)).isGitRepo = false ∨
        (detectGitRepo env fuel (env.resolve p)).repoRoot = none →
      resolveIdentity env fuel iw p =
        { canonicalId := env.md5 (env.resolve p),
          detectedPaths := [env.resolve p],
          displayName := env.basename (env.resolve p),
          identitySource := .pathHash,
          isGitRepo := false,
          isWorktree := false }) ∧
    (∀ rr nu,
      (detectGitRepo env fuel (env.resolve p)).repoRoot = some rr →
      (detectGitRepo env fuel (env.resolve p)).isGitRepo = true →
      originNormalizedUrl env rr = some nu →
      (resolveIdentity env fuel iw p).identitySource = .remoteUrl ∧
      (resolveIdentity env fuel iw p).canonicalId = env.md5 nu ∧
      (resolveIdentity env fuel iw p).remoteUrl = some nu) ∧
    (∀ rr sha,
      (detectGitRepo env fuel (env.resolve p)).repoRoot = some rr →
      (detectGitRepo env fuel (env.resolve p)).isGitRepo = true →
      originNormalizedUrl env rr = none →
      truthyInitialCommit env rr = some sha →
      (resolveIdentity env fuel iw p).identitySource = .initialCommit ∧
      (resolveIdentity env fuel iw p).canonicalId = env.md5 ("commit:" ++ sha)) ∧
    (∀ rr,
      (detectGitRepo env fuel (env.resolve p)).repoRoot = some rr →
      (detectGitRepo env fuel (env.resolve p)).isGitRepo = true →
      originNormalizedUrl env rr = none →
      truthyInitialCommit env rr = none →
      (resolveIdentity env fuel iw p).identitySource = .pathHash ∧
      (resolveIdentity env fuel iw p).canonicalId = env.md5 rr ∧
      (resolveIdentity env fuel iw p).isGitRepo = true) := by
  refine ⟨?_, ?_, ?_, ?_⟩
  · intro h
    simp only [resolveIdentity]
    rw [if_pos h]
    simp [canonicalIdFromPath]
  · intro rr nu hrr hgit hurl
    have hcond : ¬((detectGitRepo env fuel (env.resolve p)).isGitRepo = false ∨
        (detectGitRepo env fuel (env.resolve p)).repoRoot = none) := by
      simp [hgit, hrr]
    refine ⟨?_, ?_, ?_⟩ <;>
      simp [resolveIdentity, hcond, hgit, hrr, hurl, canonicalIdFromUrl]
  · intro rr sha hrr hgit hurl hsha
    have hcond : ¬((detectGitRepo env fuel (env.resolve p)).isGitRepo = false ∨
        (detectGitRepo env fuel (env.resolve p)).repoRoot = none) := by
      simp [hgit, hrr]
    refine ⟨?_, ?_⟩ <;>
      simp [resolveIdentity, hcond, hgit, hrr, hurl, hsha, canonicalIdFromCommit]
  · intro rr hrr hgit hurl hsha
    have hcond : ¬((detectGitRepo env fuel (env.resolve p)).isGitRepo = false ∨
        (detectGitRepo env fuel (env.resolve p)).repoRoot = none) := by
      simp [hgit, hrr]
    refine ⟨?_, ?_, ?_⟩ <;>
      simp [resolveIdentity, hcond, hgit, hrr, hurl, hsha, canonicalIdFromPath]

/-- Environment for the C2 witness: `/r/.git` is a directory, there is
no origin remote, and the root commit SHA is `abc`. -/
def envC2 : GitEnv :=
  { resolve := id,
    dirname := fun s => if s = "/r/.git" then "/r" else "/",
    basename := id,
    join2 := fun a b => a ++ "/" ++ b,
    rootOf := fun _ => "/",
    resolveUp2 := id,
    stat := fun s => if s = "/r/.git" then some .dir else none,
    readFile := fun _ => none,
    runGit := fun cmd _ =>
      if cmd = "git rev-list --max-parents=0 HEAD" then some "abc" else none,
    md5 := id,
    now := "now",
    pathExists := fun _ => true }

/-- Witness for C2: a repository without a remote falls back to the
salted initial-commit hash. -/
theorem resolveIdentity_firstSuccessWins_witness :
    (resolveIdentity envC2 1 true "/r").identitySource = .initialCommit ∧
    (resolveIdentity envC2 1 true "/r").canonicalId = envC2.md5 ("commit:" ++ "abc") :=
  (resolveIdentity_firstSuccessWins envC2 1 true "/r").2.2.1 "/r" "abc"
    (by decide) (by decide) (by decide) (by decide)

/-! ## C4: collection-name resolution and migration tracking -/

theorem addMappingList_mem (env : GitEnv) (inp : MappingInput)
    (l : List CollectionMigrationMapping) :
    ∃ mm ∈ addMappingList env inp l,
      mm.oldName = inp.oldName ∧ mm.newName = inp.newName ∧
      mm.canonicalId = inp.canonicalId ∧ mm.path = inp.path := by
  induction l with
  | nil =>
    exact ⟨{ oldName := inp.oldName, newName := inp.newName,
             canonicalId := inp.canonicalId, path := inp.path,
             createdAt := env.now, migrated := false },
      by simp [addMappingList], rfl, rfl, rfl, rfl⟩
  | cons h t ih =>
    by_cases hc : h.oldName = inp.oldName ∨ h.path = inp.path
    · exact ⟨{ oldName := inp.oldName, newName := inp.newName,
               canonicalId := inp.canonicalId, path := inp.path,
               createdAt := env.now, migrated := false, migratedAt := h.migratedAt },
        by simp [addMappingList, hc], rfl, rfl, rfl, rfl⟩
    · obtain ⟨mm, hmem, hp⟩ := ih
      refine ⟨mm, ?_, hp⟩
      simp only [addMappingList, if_neg hc]
      exact List.mem_cons_of_mem _ hmem

/-- C4: given the current set of existing collections,
`resolveCollectionName` returns the legacy path-hash name with
`isLegacy = true` and records a migration mapping exactly when that
legacy name exists; otherwise it returns the canonical identity-hash
name with `isLegacy = false` and an unchanged migrator; and a repeated
call with the same existing-collection set returns the same name. -/
theorem resolveCollectionName_spec (env : GitEnv) (fuel : Nat) (m : CollectionMigrator)
    (p : String) (hy : Bool) :
    (generateLegacyCollectionName env p hy ∈ m.existingCollections →
      (CollectionMigrator.resolveCollectionName env fuel m p hy).1.collectionName =
        generateLegacyCollectionName env p hy ∧
      (CollectionMigrator.resolveCollectionName env fuel m p hy).1.isLegacy = true ∧
      ∃ mm ∈ (CollectionMigrator.resolveCollectionName env fuel m p hy).2.state.mappings,
        mm.oldName = generateLegacyCollectionName env p hy ∧
        mm.newName = generateCanonicalCollectionName env
          (resolveIdentity env fuel true p).canonicalId hy ∧
        mm.canonicalId = (resolveIdentity env fuel true p).canonicalId ∧
        mm.path = env.resolve p) ∧
    (generateLegacyCollectionName env p hy ∉ m.existingCollections →
      (CollectionMigrator.resolveCollectionName env fuel m p hy).1.collectionName =
        generateCanonicalCollectionName env (resolveIdentity env fuel true p).canonicalId hy ∧
      (CollectionMigrator.resolveCollectionName env fuel m p hy).1.isLegacy = false ∧
      (CollectionMigrator.resolveCollectionName env fuel m p hy).2 = m) ∧
    (CollectionMigrator.resolveCollectionName env fuel
        (CollectionMigrator.resolveCollectionName env fuel m p hy).2 p hy).1.collectionName =
      (CollectionMigrator.resolveCollectionName env fuel m p hy).1.collectionName := by
  refine ⟨?_, ?_, ?_⟩
  · intro hl
    have hlb : CollectionMigrator.hasCollection m (generateLegacyCollectionName env p hy) = true := by
      simp [CollectionMigrator.hasCollection, hl]
    refine ⟨?_, ?_, ?_⟩
    · simp [CollectionMigrator.resolveCollectionName, generateCollectionNames, hlb]
    · simp [CollectionMigrator.resolveCollectionName, generateCollectionNames, hlb]
    · simp only [CollectionMigrator.resolveCollectionName, generateCollectionNames, hlb, if_true]
      simpa [addMigrationMapping] using
        addMappingList_mem env
          { oldName := generateLegacyCollectionName env p hy,
            newName := generateCanonicalCollectionName env
              (resolveIdentity env fuel true p).canonicalId hy,
            canonicalId := (resolveIdentity env fuel true p).canonicalId,
            path := env.resolve p } m.state.mappings
  · intro hl
    have hlb : CollectionMigrator.hasCollection m (generateLegacyCollectionName env p hy) = false := by
      simp [CollectionMigrator.hasCollection, hl]
    refine ⟨?_, ?_, ?_⟩ <;>
      simp [CollectionMigrator.resolveCollectionName, generateCollectionNames, hlb, ite_self]
  · by_cases hl : generateLegacyCollectionName env p hy ∈ m.existingCollections
    · simp [CollectionMigrator.resolveCollectionName, generateCollectionNames,
        CollectionMigrator.hasCollection, hl]
    · simp [CollectionMigrator.resolveCollectionName, generateCollectionNames,
        CollectionMigrator.hasCollection, hl, ite_self]

/-- Environment for the C4 witness: a toy hash long enough that the
8-char legacy and 12-char canonical truncations differ. -/
def envC4 : GitEnv :=
  { resolve := id,
    dirname := fun _ => "/",
    basename := id,
    join2 := fun a b => a ++ "/" ++ b,
    rootOf := fun _ => "/",
    resolveUp2 := id,
    stat := fun _ => none,
    readFile := fun _ => none,
    runGit := fun _ _ => none,
    md5 := fun s => s ++ s ++ s ++ s ++ s ++ s,
    now := "now",
    pathExists := fun _ => true }

/-- Migrator for the C4 witness: the legacy collection for `/a`
already exists in the vector store. -/
def migC4 : CollectionMigrator :=
  { state := { mappings := [], lastUpdated := "t" },
    existingCollections := ["hybrid_code_chunks_/a/a/a/a"] }

/-- Witness for C4: with the legacy collection present, the legacy name
is kept and flagged. -/
theorem resolveCollectionName_spec_witness :
    (CollectionMigrator.resolveCollectionName envC4 1 migC4 "/a" true).1.collectionName =
      generateLegacyCollectionName envC4 "/a" true ∧
    (CollectionMigrator.resolveCollectionName envC4 1 migC4 "/a" true).1.isLegacy = true :=
  ⟨((resolveCollectionName_spec envC4 1 migC4 "/a" true).1 (by decide)).1,
   ((resolveCollectionName_spec envC4 1 migC4 "/a" true).1 (by decide)).2.1⟩

/-! ## C7: bearer-token authentication -/

theorem authenticate_failed_statusCode (mw : AuthMiddleware) (req : HttpRequest)
    (h : (mw.authenticate req).authenticated = false) :
    (mw.authenticate req).statusCode = some 401 := by
  cases hauth : req.authorization with
  | none => simp [AuthMiddleware.authenticate, hauth]
  | some a =>
    simp only [AuthMiddleware.authenticate, hauth] at h ⊢
    split_ifs at h ⊢ <;> simp_all

/-- Fixtures for the C7 theorems. -/
def mwC7 : AuthMiddleware := { token := "tok" }

/-- A rate limiter as the transport constructs it. -/
def rlC7 : RateLimiter := mkRateLimiter (some 60) none

/-- An opaque stand-in for the session layer on `/mcp`. -/
def mcpC7 : HttpRequest → HttpResponse :=
  fun _ => { status := 200, headers := [], body := .mcp }

/-- C7 counterexample: a preflight `OPTIONS` request to `/mcp` carries
no valid bearer token, yet is answered 204 before authentication runs —
not 401 as the claim states for every request outside `/health`. -/
theorem auth401_claim_counterexample :
    (handleRequest (some mwC7) rlC7 0 "*" mcpC7
        { method := "OPTIONS", path := "/mcp", authorization := none }).1.status = 204 ∧
    (handleRequest (some mwC7) rlC7 0 "*" mcpC7
        { method := "OPTIONS", path := "/mcp", authorization := none }).1.status ≠ 401 ∧
    (mwC7.authenticate
        { method := "OPTIONS", path := "/mcp", authorization := none }).authenticated = false ∧
    ("/mcp" : String) ≠ "/health" := by
  refine ⟨?_, ?_, ?_, ?_⟩ <;> decide

/-- C7 (amended): with the network transport enabled, a missing or
blank auth secret exits with configuration-error status 2; a request
authenticates only with a well-formed `Bearer` header carrying exactly
the expected token; every non-preflight (non-`OPTIONS`) request to a
path outside the exclude set without a valid token receives 401 with
the `WWW-Authenticate: Bearer realm="..."` challenge; and `/health`
bypasses authentication entirely. -/
theorem authEnforcement_spec :
    (∀ mode, mode ≠ TransportMode.stdio → validateAuthToken mode none = .error 2) ∧
    (∀ mode t, mode ≠ TransportMode.stdio → jsTrimS t = "" →
      validateAuthToken mode (some t) = .error 2) ∧
    (∀ (mw : AuthMiddleware) (req : HttpRequest),
      (mw.authenticate req).authenticated = true ↔
        ∃ a, req.authorization = some a ∧ (jsSplit ' ' a).length = 2 ∧
          jsToLower ((jsSplit ' ' a).headD "") = "bearer" ∧
          (jsSplit ' ' a).getD 1 "" = mw.token) ∧
    (∀ (mw : AuthMiddleware) (rl : RateLimiter) (now : Nat) (co : String)
        (mcp : HttpRequest → HttpResponse) (req : HttpRequest),
      req.method ≠ "OPTIONS" →
      req.path ∉ mw.excludePaths →
      (mw.authenticate req).authenticated = false →
      (handleRequest (some mw) rl now co mcp req).1.status = 401 ∧
      ("WWW-Authenticate", "Bearer realm=\"MCP Server\"") ∈
        (handleRequest (some mw) rl now co mcp req).1.headers) ∧
    (∀ (mw : AuthMiddleware) (rl : RateLimiter) (now : Nat) (co : String)
        (mcp : HttpRequest → HttpResponse) (req : HttpRequest),
      req.method ≠ "OPTIONS" →
      mw.excludePaths = ["/health"] →
      rl.excludePaths = ["/health"] →
      req.path = "/health" →
      (handleRequest (some mw) rl now co mcp req).1.status = 200 ∧
      (handleRequest (some mw) rl now co mcp req).1.body = .health) := by
  refine ⟨?_, ?_, ?_, ?_, ?_⟩
  · intro mode h
    cases mode <;> simp_all [validateAuthToken]
  · intro mode t h ht
    cases mode <;> simp_all [validateAuthToken]
  · intro mw req
    cases hauth : req.authorization with
    | none => simp [AuthMiddleware.authenticate, hauth]
    | some a =>
      simp only [AuthMiddleware.authenticate, hauth, Option.some.injEq]
      split_ifs with h1 h2
      · simp only [Bool.false_eq_true, false_iff]
        rintro ⟨a2, rfl, hlen, hbear, htok⟩
        rcases h1 with h | h <;> exact h (by assumption)
      · simp only [Bool.false_eq_true, false_iff]
        rintro ⟨a2, rfl, hlen, hbear, htok⟩
        exact h2 htok
      · push_neg at h1
        exact ⟨fun _ => ⟨a, rfl, h1.1, h1.2, not_ne_iff.mp h2⟩, fun _ => rfl⟩
  · intro mw rl now co mcp req hm hex hfail
    have hreq : mw.requiresAuth req.path = true := by
      simp [AuthMiddleware.requiresAuth, hex]
    have hsc := authenticate_failed_statusCode mw req hfail
    constructor <;>
      simp [handleRequest, hm, hreq, hfail, handleUnauthorized, hsc]
  · intro mw rl now co mcp req hm hexa hexr hp
    have hreq : mw.requiresAuth "/health" = false := by
      simp [AuthMiddleware.requiresAuth, hexa]
    have hsl : rl.shouldLimit "/health" = false := by
      simp [RateLimiter.shouldLimit, hexr]
    constructor <;>
      simp [handleRequest, hm, hp, hreq, hsl]

/-- Witness for the amended C7. -/
theorem authEnforcement_spec_witness :
    validateAuthToken TransportMode.http none = .error 2 ∧
    (handleRequest (some mwC7) rlC7 0 "*" mcpC7
        { method := "POST", path := "/mcp", authorization := some "Bearer wrong" }).1.status
      = 401 := by
  refine ⟨authEnforcement_spec.1 TransportMode.http (by decide), ?_⟩
  exact (authEnforcement_spec.2.2.2.1 mwC7 rlC7 0 "*" mcpC7
    { method := "POST", path := "/mcp", authorization := some "Bearer wrong" }
    (by decide) (by decide) (by decide)).1

/-! ## C8: per-address fixed-window rate limiting -/

theorem checkSeq_from_entry (ip : String) (ts : List Nat) :
    ∀ (rl : RateLimiter) (c reset : Nat),
      alookup rl.limits ip = some ⟨c, reset⟩ →
      (∀ u ∈ ts, u < reset) →
      alookup ((rl.checkSeq ip ts).1).limits ip = some ⟨c + ts.length, reset⟩ ∧
      ((rl.checkSeq ip ts).1).requestsPerMinute = rl.requestsPerMinute ∧
      (rl.checkSeq ip ts).2.length = ts.length ∧
      ∀ i, i < ts.length →
        (rl.checkSeq ip ts).2.getD i ⟨true, 0, none⟩ =
          (if rl.requestsPerMinute < c + i + 1
           then { allowed := false, remaining := 0,
                  retryAfter := some ((reset - ts.getD i 0 + 999) / 1000) }
           else { allowed := true,
                  remaining := (rl.requestsPerMinute : Int) - ((c + i + 1 : Nat) : Int) }) := by
  induction ts with
  | nil =>
    intro rl c reset h _
    exact ⟨by simpa [RateLimiter.checkSeq] using h, rfl, rfl, by intro i hi; cases hi⟩
  | cons t ts ih =>
    intro rl c reset h hts
    have hnow : ¬ t ≥ reset := by
      have := hts t (List.mem_cons_self t ts)
      omega
    have hstep2 : (rl.check t ip).2 =
        { rl with limits := aset rl.limits ip { count := c + 1, resetTime := reset } } := by
      simp only [RateLimiter.check, h, hnow, if_false]
      split <;> rfl
    have h1 : alookup ((rl.check t ip).2).limits ip = some ⟨c + 1, reset⟩ := by
      rw [hstep2]
      exact alookup_aset_self _ _ _
    have hrpm1 : ((rl.check t ip).2).requestsPerMinute = rl.requestsPerMinute := by
      rw [hstep2]
    obtain ⟨hfin, hrpm2, hlen, hidx⟩ :=
      ih (rl.check t ip).2 (c + 1) reset h1 (fun u hu => hts u (List.mem_cons_of_mem t hu))
    refine ⟨?_, ?_, ?_, ?_⟩
    · simp only [RateLimiter.checkSeq]
      rw [hfin]
      simp [Nat.add_assoc, Nat.add_comm 1 ts.length]
    · simp only [RateLimiter.checkSeq]
      rw [hrpm2, hrpm1]
    · simp [RateLimiter.checkSeq, hlen]
    · intro i hi
      match i with
      | 0 =>
        by_cases hgt : rl.requestsPerMinute < c + 1 <;>
          simp [RateLimiter.checkSeq, RateLimiter.check, h, hnow, hgt]
      | Nat.succ j =>
        have hj : j < ts.length := by simpa using hi
        have hval := hidx j hj
        rw [hrpm1] at hval
        have hgd : ((rl.checkSeq ip (t :: ts)).2).getD (j + 1) ⟨true, 0, none⟩ =
            (((rl.check t ip).2).checkSeq ip ts).2.getD j ⟨true, 0, none⟩ := by
          simp [RateLimiter.checkSeq]
        rw [hgd, hval]
        have harith : c + 1 + j + 1 = c + (j + 1) + 1 := by omega
        simp [harith]

/-- C8: the rate limiter uses a fixed 60 s window with a configurable
budget defaulting to 60; the source address is the first
comma-separated `X-Forwarded-For` entry, else the peer address; the
health path is excluded; checking one address leaves other addresses
untouched; within one window the requests beyond the budget — and
exactly those — are denied, with `Retry-After` at most one window; and
an over-budget `/mcp` request is answered 429 with `Retry-After` and
`X-RateLimit-*` headers. -/
theorem rateLimiting_spec :
    (mkRateLimiter none none).requestsPerMinute = 60 ∧
    (∀ rpm e, (mkRateLimiter rpm e).windowMs = 60 * 1000) ∧
    (∀ n e, (mkRateLimiter (some n) e).requestsPerMinute = n) ∧
    (∀ rpm e, (mkRateLimiter rpm e).shouldLimit "/health" = false) ∧
    (∀ (req : HttpRequest) s, req.xForwardedFor = some s →
      getClientIp req = jsTrimS ((jsSplit ',' s).headD "")) ∧
    (∀ (req : HttpRequest) a, req.xForwardedFor = none → req.remoteAddr = some a →
      getClientIp req = a) ∧
    (∀ (rl : RateLimiter) (now : Nat) (ip ip2 : String), ip ≠ ip2 →
      alookup ((rl.check now ip).2).limits ip2 = alookup rl.limits ip2) ∧
    (∀ (rl : RateLimiter) (ip : String) (t : Nat) (ts : List Nat),
      alookup rl.limits ip = none →
      (∀ u ∈ ts, t ≤ u ∧ u < t + rl.windowMs) →
      1 ≤ rl.requestsPerMinute →
      ∀ i, i < ts.length + 1 →
        ((rl.checkSeq ip (t :: ts)).2.getD i ⟨true, 0, none⟩).allowed =
          decide (i + 1 ≤ rl.requestsPerMinute) ∧
        (rl.requestsPerMinute < i + 1 →
          ∃ ra, ((rl.checkSeq ip (t :: ts)).2.getD i ⟨true, 0, none⟩).retryAfter = some ra ∧
            ra ≤ (rl.windowMs + 999) / 1000)) ∧
    (∀ (mw : AuthMiddleware) (rl : RateLimiter) (now : Nat) (co : String)
        (mcp : HttpRequest → HttpResponse) (req : HttpRequest) (c reset : Nat),
      req.method ≠ "OPTIONS" →
      req.path = "/mcp" →
      (mw.authenticate req).authenticated = true →
      rl.excludePaths = ["/health"] →
      alookup rl.limits (getClientIp req) = some ⟨c, reset⟩ →
      now < reset →
      rl.requestsPerMinute < c + 1 →
      (handleRequest (some mw) rl now co mcp req).1.status = 429 ∧
      (∃ v, ("Retry-After", v) ∈ (handleRequest (some mw) rl now co mcp req).1.headers) ∧
      (∃ v, ("X-RateLimit-Limit", v) ∈ (handleRequest (some mw) rl now co mcp req).1.headers) ∧
      (∃ v, ("X-RateLimit-Remaining", v) ∈
        (handleRequest (some mw) rl now co mcp req).1.headers)) := by
  refine ⟨rfl, fun _ _ => rfl, fun _ _ => rfl, fun _ _ => rfl, ?_, ?_, ?_, ?_, ?_⟩
  · intro req s h
    simp [getClientIp, h]
  · intro req a h ha
    simp [getClientIp, h, ha]
  · intro rl now ip ip2 hne
    cases h : alookup rl.limits ip with
    | none => simp [RateLimiter.check, h, alookup_aset_ne _ _ _ _ hne]
    | some entry =>
      by_cases hr : now ≥ entry.resetTime
      · simp [RateLimiter.check, h, hr, alookup_aset_ne _ _ _ _ hne]
      · simp [RateLimiter.check, h, hr, apply_ite, alookup_aset_ne _ _ _ _ hne]
  · intro rl ip t ts h0 hts hrpm i hi
    have hstep2 : (rl.check t ip).2 =
        { rl with limits := aset rl.limits ip { count := 1, resetTime := t + rl.windowMs } } := by
      simp [RateLimiter.check, h0]
    have h1 : alookup ((rl.check t ip).2).limits ip = some ⟨1, t + rl.windowMs⟩ := by
      rw [hstep2]
      exact alookup_aset_self _ _ _
    obtain ⟨hfin, hrpm2, hlen, hidx⟩ :=
      checkSeq_from_entry ip ts (rl.check t ip).2 1 (t + rl.windowMs) h1
        (fun u hu => (hts u hu).2)
    have hrpm1 : ((rl.check t ip).2).requestsPerMinute = rl.requestsPerMinute := by
      rw [hstep2]
    match i with
    | 0 =>
      constructor
      · simp only [RateLimiter.checkSeq, RateLimiter.check, h0, List.getD_cons_zero]
        exact (decide_eq_true hrpm).symm
      · intro habs
        omega
    | Nat.succ j =>
      have hj : j < ts.length := by simpa using hi
      have hval := hidx j hj
      rw [hrpm1] at hval
      have hgd : ((rl.checkSeq ip (t :: ts)).2).getD (j + 1) ⟨true, 0, none⟩ =
          (((rl.check t ip).2).checkSeq ip ts).2.getD j ⟨true, 0, none⟩ := by
        simp [RateLimiter.checkSeq]
      constructor
      · rw [hgd, hval]
        by_cases hgt : rl.requestsPerMinute < 1 + j + 1
        · rw [if_pos hgt]
          have hne2 : ¬ (j + 1 + 1 ≤ rl.requestsPerMinute) := by omega
          simp [hne2]
        · rw [if_neg hgt]
          have hle : j + 1 + 1 ≤ rl.requestsPerMinute := by omega
          simp [hle]
      · intro hdeny
        have hgt : rl.requestsPerMinute < 1 + j + 1 := by omega
        rw [hgd, hval, if_pos hgt]
        refine ⟨_, rfl, ?_⟩
        have hmem : ts.getD j 0 ∈ ts := by
          rw [List.getD_eq_getElem ts 0 hj]
          exact List.getElem_mem hj
        have hge : t ≤ ts.getD j 0 := (hts _ hmem).1
        exact Nat.div_le_div_right (by omega)
  · intro mw rl now co mcp req c reset hm hp hauth hex hentry hnow hover
    have hsl : rl.shouldLimit req.path = true := by
      simp [RateLimiter.shouldLimit, hex, hp]
    have hnn : ¬ now ≥ reset := by omega
    have hcheck : rl.check now (getClientIp req) =
        ({ allowed := false, remaining := 0,
           retryAfter := some ((reset - now + 999) / 1000) },
         { rl with limits := aset rl.limits (getClientIp req) ⟨c + 1, reset⟩ }) := by
      simp [RateLimiter.check, hentry, hnn, hover]
    refine ⟨?_, ?_, ?_, ?_⟩ <;>
      · rcases Bool.eq_false_or_eq_true (mw.requiresAuth req.path) with hreq | hreq <;>
          simp [handleRequest, hm, hreq, hauth, hsl, hcheck, RateLimiter.handleLimited,
            RateLimiter.addHeaders]

/-- Witness for C8: with budget 2, the third request in one window is
denied. -/
theorem rateLimiting_spec_witness :
    (mkRateLimiter none none).requestsPerMinute = 60 ∧
    (((mkRateLimiter (some 2) none).checkSeq "1.2.3.4" [0, 1, 2]).2.getD 2
        ⟨true, 0, none⟩).allowed = decide (2 + 1 ≤ 2) :=
  ⟨rateLimiting_spec.1,
   (rateLimiting_spec.2.2.2.2.2.2.2.1 (mkRateLimiter (some 2) none) "1.2.3.4" 0 [1, 2]
      (by decide) (by decide) (by decide) 2 (by decide)).1⟩

/-! ## C9: `search_all` result bounds, attribution, ordering -/

theorem mem_dedup_foldl {β : Type} (l : List (String × β)) :
    ∀ (acc : List (String × β)) (x : String × β),
      x ∈ l.foldl (fun acc t => if acc.any (fun u => u.1 = t.1) then acc else acc ++ [t]) acc →
      x ∈ acc ∨ x ∈ l := by
  induction l with
  | nil =>
    intro acc x h
    exact Or.inl h
  | cons t ts ih =>
    intro acc x h
    rcases ih _ x h with h2 | h2
    · simp only at h2
      split at h2
      · exact Or.inl h2
      · rcases List.mem_append.mp h2 with h3 | h3
        · exact Or.inl h3
        · simp only [List.mem_singleton] at h3
          exact Or.inr (h3 ▸ List.mem_cons_self t ts)
    · exact Or.inr (List.mem_cons_of_mem t h2)

theorem dedup_foldl_fst {β : Type} (l : List (String × β)) :
    ∀ (acc : List (String × β)) (c : String),
      (c ∈ acc.map (fun t => t.1) ∨ c ∈ l.map (fun t => t.1)) →
      c ∈ (l.foldl (fun acc t => if acc.any (fun u => u.1 = t.1) then acc else acc ++ [t])
        acc).map (fun t => t.1) := by
  induction l with
  | nil =>
    intro acc c h
    rcases h with h | h
    · exact h
    · cases h
  | cons t ts ih =>
    intro acc c h
    rw [List.foldl_cons]
    apply ih
    by_cases hany : (acc.any fun u => decide (u.1 = t.1)) = true
    · rw [if_pos hany]
      rcases h with h | h
      · exact Or.inl h
      · rw [List.map_cons] at h
        rcases List.mem_cons.mp h with h | h
        · obtain ⟨u, hu, hu1⟩ := List.any_eq_true.mp hany
          refine Or.inl ?_
          rw [h, ← of_decide_eq_true hu1]
          exact List.mem_map_of_mem _ hu
        · exact Or.inr h
    · rw [if_neg hany]
      rcases h with h | h
      · refine Or.inl ?_
        rw [List.map_append]
        exact List.mem_append.mpr (Or.inl h)
      · rw [List.map_cons] at h
        rcases List.mem_cons.mp h with h | h
        · refine Or.inl ?_
          rw [List.map_append, h]
          simp
        · exact Or.inr h

theorem searchAllTargets_attribution (registry : List RepoRecord)
    (sc : List String) (repos : List String) :
    ∀ t ∈ searchAllTargets registry sc repos,
      (∃ r ∈ registry, r.isIndexed = true ∧ t.2 = some r) ∨
      (t.2 = none ∧ ∀ r ∈ registry, r.isIndexed = true →
        ¬ r.collectionName = some t.1) := by
  intro t ht
  have hmerged : t ∈ (((registry.filter (fun r => r.isIndexed)).filterMap
        (fun r => r.collectionName.map
          (fun c => ((c, some r) : String × Option RepoRecord)))) ++
      (sc.map (fun c =>
        ((c, (registry.filter (fun r => r.isIndexed)).find?
          (fun r => r.collectionName = some c)) : String × Option RepoRecord)))) := by
    simp only [searchAllTargets] at ht
    split at ht
    · rcases mem_dedup_foldl _ [] t ht with h | h
      · cases h
      · exact h
    · have ht2 := (List.mem_filter.mp ht).1
      rcases mem_dedup_foldl _ [] t ht2 with h | h
      · cases h
      · exact h
  rcases List.mem_append.mp hmerged with h | h
  · obtain ⟨r, hr, heq⟩ := List.mem_filterMap.mp h
    obtain ⟨c, _, heq2⟩ := Option.map_eq_some'.mp heq
    have h2 := List.mem_filter.mp hr
    exact Or.inl ⟨r, h2.1, by simpa using h2.2, by rw [← heq2]⟩
  · obtain ⟨c, _, heq⟩ := List.mem_map.mp h
    cases hfind : (registry.filter (fun r => r.isIndexed)).find?
        (fun r => r.collectionName = some c) with
    | some r =>
      have hr : r ∈ registry.filter (fun r => r.isIndexed) :=
        List.mem_of_find?_eq_some hfind
      have h2 := List.mem_filter.mp hr
      refine Or.inl ⟨r, h2.1, by simpa using h2.2, ?_⟩
      rw [← heq]
      simp [hfind]
    | none =>
      refine Or.inr ⟨by rw [← heq]; simp [hfind], ?_⟩
      intro r hr hidx hcol
      have hmem : r ∈ registry.filter (fun r => r.isIndexed) :=
        List.mem_filter.mpr ⟨hr, by simpa using hidx⟩
      have := List.find?_eq_none.mp hfind r hmem
      have ht1 : t.1 = c := by rw [← heq]
      rw [ht1] at hcol
      simp [hcol] at this

theorem searchAllTargets_discovery (registry : List RepoRecord) (sc : List String) :
    ∀ c ∈ sc, c ∈ (searchAllTargets registry sc []).map (fun t => t.1) := by
  intro c hc
  simp only [searchAllTargets, if_pos rfl]
  apply dedup_foldl_fst
  right
  rw [List.map_append]
  apply List.mem_append.mpr
  right
  rw [List.map_map]
  simpa [Function.comp] using hc

theorem mem_searchFold (outcomes : List ((String × Option RepoRecord) × CollectionOutcome)) :
    ∀ (acc : List SearchAllResult) (x : SearchAllResult),
      x ∈ outcomes.foldl (fun acc o =>
        match o.2 with
        | .success hits => acc ++ hits.map (attributeHit o.1)
        | _ => acc) acc →
      x ∈ acc ∨ ∃ o ∈ outcomes, ∃ hit, x = attributeHit o.1 hit := by
  induction outcomes with
  | nil =>
    intro acc x h
    exact Or.inl h
  | cons o os ih =>
    intro acc x h
    rcases ih _ x h with h2 | h2
    · simp only at h2
      split at h2
      · rcases List.mem_append.mp h2 with h3 | h3
        · exact Or.inl h3
        · obtain ⟨hit, _, heq⟩ := List.mem_map.mp h3
          exact Or.inr ⟨o, List.mem_cons_self o os, hit, heq.symm⟩
      · exact Or.inl h2
    · obtain ⟨o2, ho2, hit, heq⟩ := h2
      exact Or.inr ⟨o2, List.mem_cons_of_mem o ho2, hit, heq⟩

theorem searchAllLe_score (a b : SearchAllResult) (h : searchAllLe a b) :
    b.score ≤ a.score := by
  unfold searchAllLe searchSortKey at h
  rcases (Prod.Lex.le_iff _ _).mp h with h1 | ⟨h1, _⟩
  · exact le_of_lt (neg_lt_neg_iff.mp h1)
  · exact le_of_eq (neg_injective h1).symm

/-- Registry fixture for the C9 theorems: one indexed repository whose
collection is `c1`. -/
def regW : List RepoRecord :=
  [{ canonicalId := "id1", displayName := "r1", identitySource := .pathHash,
     knownPaths := ["/r1"], worktrees := [], isIndexed := true,
     collectionName := some "c1" }]

/-- Environment fixture for the C9 counterexample: the store also holds
a collection `c9` that no registry record references, and only that
collection returns a hit. -/
def envW9 : SearchEnv :=
  { storeCollections := ["c1", "c9"],
    outcome := fun c =>
      if c = "c9" then
        .success [{ relativePath := "g.ts", startLine := 3, endLine := 4, language := "ts",
                    content := "y", score := (1 : Rat) }]
      else .success [] }

/-- C9 counterexample: with collection discovery merging the store's
live enumeration as section 4.G requires, a store-only collection is a
fan-out target, and its hit yields a result whose `canonicalRepoId`
matches no registry record — refuting the claim that every result
carries a canonical ID present in the registry. -/
theorem searchAll_claim_counterexample :
    "c9" ∈ (searchAllTargets regW envW9.storeCollections []).map (fun t => t.1) ∧
    ∃ res ∈ (handleSearchAll envW9 regW [] 5).results,
      ∀ rec ∈ regW, ¬ rec.canonicalId = res.canonicalRepoId := by
  constructor
  · decide
  · decide

/-- C9 (amended; the engine is modelled from the spec, section 4.G,
because handlers.ts is not in the provided sources): `search_all`
returns at most `limit` results, sorted non-increasingly by score with
the stable lexical tiebreak; the summary's `collectionsQueried` equals
the number of fan-out targets; with no `repos` filter every live store
collection is a fan-out target, including collections no registry
record references; and each result is attributed to an indexed registry
record by canonical ID whenever one references its source collection,
while a result from a store-only collection can carry only the
collection name itself. -/
theorem searchAll_spec (env : SearchEnv) (registry : List RepoRecord)
    (repos : List String) (limit : Nat) :
    (handleSearchAll env registry repos limit).results.length ≤ limit ∧
    (∀ res ∈ (handleSearchAll env registry repos limit).results,
      (∃ rec ∈ registry, rec.isIndexed = true ∧ rec.canonicalId = res.canonicalRepoId) ∨
      (res.canonicalRepoId = res.sourceCollection ∧
        ∀ rec ∈ registry, rec.isIndexed = true →
          ¬ rec.collectionName = some res.sourceCollection)) ∧
    List.Pairwise (fun a b => b.score ≤ a.score)
      (handleSearchAll env registry repos limit).results ∧
    (handleSearchAll env registry repos limit).summary.collectionsQueried =
      (searchAllTargets registry env.storeCollections repos).length ∧
    (∀ c ∈ env.storeCollections,
      c ∈ (searchAllTargets registry env.storeCollections []).map (fun t => t.1)) := by
  refine ⟨?_, ?_, ?_, rfl, searchAllTargets_discovery registry env.storeCollections⟩
  · simp only [handleSearchAll]
    rw [List.length_take]
    exact min_le_left _ _
  · intro res hres
    simp only [handleSearchAll] at hres
    have hsort : res ∈ (List.insertionSort searchAllLe _) :=
      (List.take_sublist _ _).subset hres
    have hraw := (List.perm_insertionSort searchAllLe _).mem_iff.mp hsort
    rcases mem_searchFold _ [] res hraw with h | ⟨o, ho, hit, heq⟩
    · cases h
    · obtain ⟨t, htarget, heqo⟩ := List.mem_map.mp ho
      have hattr := searchAllTargets_attribution registry env.storeCollections repos t htarget
      rcases hattr with ⟨r, hr, hidx, ht2⟩ | ⟨ht2, hnone⟩
      · refine Or.inl ⟨r, hr, hidx, ?_⟩
        rw [heq, ← heqo]
        simp [attributeHit, ht2]
      · refine Or.inr ⟨?_, ?_⟩
        · rw [heq, ← heqo]
          simp [attributeHit, ht2]
        · have hsc : res.sourceCollection = t.1 := by
            rw [heq, ← heqo]
            rfl
          rw [hsc]
          exact hnone
  · simp only [handleSearchAll]
    have hs : List.Sorted searchAllLe
        (List.insertionSort searchAllLe (List.foldl (fun acc o =>
          match o.2 with
          | .success hits => acc ++ hits.map (attributeHit o.1)
          | _ => acc) []
          ((searchAllTargets registry env.storeCollections repos).map
            (fun t => (t, env.outcome t.1))))) :=
      List.sorted_insertionSort searchAllLe _
    exact (hs.sublist (List.take_sublist _ _)).imp (fun h => searchAllLe_score _ _ h)

/-- Environment fixture for the C9 witness. -/
def envW : SearchEnv :=
  { storeCollections := ["c1"],
    outcome := fun _ => .success
      [{ relativePath := "f.ts", startLine := 1, endLine := 2, language := "ts",
         content := "x", score := (1 : Rat) }] }

/-- Witness for C9 at a one-repository registry: the limit bound and
the discovery of the store's collection, instantiated concretely. -/
theorem searchAll_spec_witness :
    (handleSearchAll envW regW [] 2).results.length ≤ 2 ∧
    "c1" ∈ (searchAllTargets regW envW.storeCollections []).map (fun t => t.1) :=
  ⟨(searchAll_spec envW regW [] 2).1,
    (searchAll_spec envW regW [] 2).2.2.2.2 "c1" (by decide)⟩

/-! ## C3: URL normalization -/

theorem dataGitAt : "git@".data = ['g', 'i', 't', '@'] := by decide

theorem dataSshScheme : "ssh://".data = ['s', 's', 'h', ':', '/', '/'] := by decide

theorem dataHttpsScheme : "https://".data = ['h', 't', 't', 'p', 's', ':', '/', '/'] := by decide

theorem dataHttpScheme : "http://".data = ['h', 't', 't', 'p', ':', '/', '/'] := by decide

theorem dataGitScheme : "git://".data = ['g', 'i', 't', ':', '/', '/'] := by decide

theorem dataFileScheme : "file://".data = ['f', 'i', 'l', 'e', ':', '/', '/'] := by decide

theorem dataDotGit : ".git".data = ['.', 'g', 'i', 't'] := by decide

theorem dropWhile_all_false {p : Char → Bool} :
    ∀ l : List Char, (∀ c ∈ l, p c = false) → l.dropWhile p = l
  | [], _ => rfl
  | x :: xs, h => by
    simp [List.dropWhile, h x (List.mem_cons_self x xs)]

theorem jsTrim_eq_self (l : List Char) (h : ∀ c ∈ l, jsSpace c = false) : jsTrim l = l := by
  unfold jsTrim
  rw [dropWhile_all_false l h,
    dropWhile_all_false l.reverse (fun c hc => h c (List.mem_reverse.mp hc)),
    List.reverse_reverse]

theorem jsSpace_of_lineTerm (c : Char) (h : jsLineTerm c = true) : jsSpace c = true := by
  simp only [jsLineTerm, Bool.or_eq_true, decide_eq_true_eq] at h
  rcases h with ((h | h) | h) | h <;> subst h <;> decide

theorem lineTerm_false_of_space (c : Char) (h : jsSpace c = false) : jsLineTerm c = false := by
  cases hjl : jsLineTerm c
  · rfl
  · rw [jsSpace_of_lineTerm c hjl] at h
    cases h

theorem splitAtFirst_not_mem (c : Char) (l : List Char) (h : c ∉ l) :
    splitAtFirst c l = none := by
  induction l with
  | nil => rfl
  | cons x xs ih =>
    have hx : ¬ x = c := fun e => h (e ▸ List.mem_cons_self x xs)
    simp [splitAtFirst, hx, ih (fun hm => h (List.mem_cons_of_mem _ hm))]

theorem splitAtFirst_append (c : Char) (a b : List Char) (h : c ∉ a) :
    splitAtFirst c (a ++ c :: b) = some (a, b) := by
  induction a with
  | nil => simp [splitAtFirst]
  | cons x xs ih =>
    have hx : ¬ x = c := fun e => h (e ▸ List.mem_cons_self x xs)
    simp [splitAtFirst, hx, ih (fun hm => h (List.mem_cons_of_mem _ hm))]

theorem stripDotGit_append (l : List Char) : stripDotGit (l ++ ".git".data) = l := by
  unfold stripDotGit
  rw [if_pos (by simp [List.isSuffixOf_iff_suffix])]
  have h4 : (l ++ ".git".data).length - 4 = l.length := by simp
  rw [h4]
  exact List.take_left l _

theorem stripDotGit_of_not (l : List Char) (h : ¬ (".git".data <:+ l)) :
    stripDotGit l = l := by
  unfold stripDotGit
  rw [if_neg (by simpa [List.isSuffixOf_iff_suffix] using h)]

theorem sshMatch_eval (host p2 : List Char)
    (hh1 : host ≠ []) (hh : ':' ∉ host)
    (hp1 : p2 ≠ []) (hp : ∀ c ∈ p2, jsLineTerm c = false) :
    sshMatch ("git@".data ++ (host ++ ':' :: p2)) = some (host, p2) := by
  unfold sshMatch
  rw [if_pos (by simp [List.isPrefixOf_iff_prefix])]
  have hdrop : ("git@".data ++ (host ++ ':' :: p2)).drop 4 = host ++ ':' :: p2 := rfl
  rw [hdrop, splitAtFirst_append ':' host p2 hh]
  have hall : p2.all (fun c => !jsLineTerm c) = true :=
    List.all_eq_true.mpr (fun c hc => by simp [hp c hc])
  simp [hh1, hp1, hall]

theorem hostPathMatch_eval (host p2 : List Char)
    (hh1 : host ≠ []) (hh : '/' ∉ host)
    (hp1 : p2 ≠ []) (hp : ∀ c ∈ p2, jsLineTerm c = false) :
    hostPathMatch (host ++ '/' :: p2) = some (host, p2) := by
  unfold hostPathMatch
  rw [splitAtFirst_append '/' host p2 hh]
  have hall : p2.all (fun c => !jsLineTerm c) = true :=
    List.all_eq_true.mpr (fun c hc => by simp [hp c hc])
  simp [hh1, hp1, hall]

theorem urlTail_nocreds (host p2 : List Char)
    (hh1 : host ≠ []) (hh : '/' ∉ host) (hhat : '@' ∉ host)
    (hp1 : p2 ≠ []) (hp : ∀ c ∈ p2, jsLineTerm c = false) (hpat : '@' ∉ p2) :
    urlTail (host ++ '/' :: p2) = some (host, p2) := by
  unfold urlTail
  have hnot : '@' ∉ host ++ '/' :: p2 := by
    intro hmem
    rcases List.mem_append.mp hmem with h | h
    · exact hhat h
    · rcases List.mem_cons.mp h with h | h
      · cases h
      · exact hpat h
  simp only [splitAtFirst_not_mem '@' _ hnot]
  exact hostPathMatch_eval host p2 hh1 hh hp1 hp

theorem urlTail_creds (user host p2 : List Char)
    (hu1 : user ≠ []) (huat : '@' ∉ user)
    (hh1 : host ≠ []) (hh : '/' ∉ host)
    (hp1 : p2 ≠ []) (hp : ∀ c ∈ p2, jsLineTerm c = false) :
    urlTail (user ++ '@' :: (host ++ '/' :: p2)) = some (host, p2) := by
  unfold urlTail
  simp only [splitAtFirst_append '@' user _ huat]
  simp [hu1, hostPathMatch_eval host p2 hh1 hh hp1 hp]

theorem bool_not_true {b : Bool} (h : b = false) : ¬ (b = true) := by simp [h]

theorem urlSchemeSplit_ssh (mid : List Char) :
    urlSchemeSplit ("ssh://".data ++ mid) = some mid := by
  unfold urlSchemeSplit
  rw [if_pos (by simp [List.isPrefixOf_iff_prefix])]
  rfl

theorem urlSchemeSplit_https (mid : List Char) :
    urlSchemeSplit ("https://".data ++ mid) = some mid := by
  have h1 : ("ssh://".data).isPrefixOf ("https://".data ++ mid) = false := rfl
  unfold urlSchemeSplit
  rw [if_neg (bool_not_true h1), if_pos (by simp [List.isPrefixOf_iff_prefix])]
  rfl

theorem urlSchemeSplit_http (mid : List Char) :
    urlSchemeSplit ("http://".data ++ mid) = some mid := by
  have h1 : ("ssh://".data).isPrefixOf ("http://".data ++ mid) = false := rfl
  have h2 : ("https://".data).isPrefixOf ("http://".data ++ mid) = false := rfl
  unfold urlSchemeSplit
  rw [if_neg (bool_not_true h1), if_neg (bool_not_true h2),
    if_pos (by simp [List.isPrefixOf_iff_prefix])]
  rfl

theorem urlSchemeSplit_git (mid : List Char) :
    urlSchemeSplit ("git://".data ++ mid) = some mid := by
  have h1 : ("ssh://".data).isPrefixOf ("git://".data ++ mid) = false := rfl
  have h2 : ("https://".data).isPrefixOf ("git://".data ++ mid) = false := rfl
  have h3 : ("http://".data).isPrefixOf ("git://".data ++ mid) = false := rfl
  unfold urlSchemeSplit
  rw [if_neg (bool_not_true h1), if_neg (bool_not_true h2), if_neg (bool_not_true h3),
    if_pos (by simp [List.isPrefixOf_iff_prefix])]
  rfl

theorem normalizeGitUrlCore_scheme (schData mid host p2out : List Char)
    (hssh : sshMatch (schData ++ mid) = none)
    (hscheme : urlSchemeSplit (schData ++ mid) = some mid)
    (htrim : jsTrim (schData ++ mid) = schData ++ mid)
    (htail : urlTail mid = some (host, p2out)) :
    normalizeGitUrlCore (schData ++ mid) = some (host ++ '/' :: stripDotGit p2out) := by
  simp only [normalizeGitUrlCore, urlMatch, htrim, hssh, hscheme]
  simp [htail]

/-- C3: `normalizeGitUrl` maps the `git@host:owner/name(.git)?`,
`ssh://[user@]host/p(.git)?`, `http(s)://[user@]host/p(.git)?` and
`git://host/p(.git)?` forms to `host/p` (stripping the trailing `.git`
and the credential segment), so the SSH and HTTPS forms of one
repository normalize equally; `file://` URLs and inputs carrying none
of these prefixes yield no value. -/
theorem normalizeGitUrl_spec (host p2 user : List Char)
    (hh1 : host ≠ [])
    (hh : ∀ c ∈ host, c ≠ ':' ∧ c ≠ '/' ∧ c ≠ '@' ∧ jsSpace c = false)
    (hp1 : p2 ≠ [])
    (hp : ∀ c ∈ p2, c ≠ '@' ∧ jsSpace c = false)
    (hu1 : user ≠ [])
    (hu : ∀ c ∈ user, c ≠ '@' ∧ jsSpace c = false)
    (hgit : ¬ (".git".data <:+ p2)) :
    (normalizeGitUrlCore ("git@".data ++ (host ++ ':' :: p2)) =
      some (host ++ '/' :: p2)) ∧
    (normalizeGitUrlCore ("git@".data ++ (host ++ ':' :: (p2 ++ ".git".data))) =
      some (host ++ '/' :: p2)) ∧
    (∀ sch ∈ ["ssh://", "https://", "http://", "git://"],
      (normalizeGitUrlCore (sch.data ++ (host ++ '/' :: p2)) =
        some (host ++ '/' :: p2)) ∧
      (normalizeGitUrlCore (sch.data ++ (host ++ '/' :: (p2 ++ ".git".data))) =
        some (host ++ '/' :: p2)) ∧
      (normalizeGitUrlCore (sch.data ++ (user ++ '@' :: (host ++ '/' :: p2))) =
        some (host ++ '/' :: p2)) ∧
      (normalizeGitUrlCore (sch.data ++ (user ++ '@' :: (host ++ '/' :: (p2 ++ ".git".data)))) =
        some (host ++ '/' :: p2))) ∧
    (normalizeGitUrlCore ("git@".data ++ (host ++ ':' :: p2)) =
      normalizeGitUrlCore ("https://".data ++ (host ++ '/' :: p2))) ∧
    (∀ l rest : List Char, jsTrim l = "file://".data ++ rest → normalizeGitUrlCore l = none) ∧
    (∀ l : List Char,
      (∀ sch ∈ ["git@", "ssh://", "https://", "http://", "git://"],
        ¬ (sch.data <+: jsTrim l)) →
      normalizeGitUrlCore l = none) ∧
    normalizeGitUrl "git@github.com:u/r.git" = some "github.com/u/r" ∧
    normalizeGitUrl "https://github.com/u/r.git" = some "github.com/u/r" ∧
    normalizeGitUrl "file:///home/u/r" = none := by
  have hostNS : ∀ c ∈ host, jsSpace c = false := fun c hc => (hh c hc).2.2.2
  have p2NS : ∀ c ∈ p2, jsSpace c = false := fun c hc => (hp c hc).2
  have userNS : ∀ c ∈ user, jsSpace c = false := fun c hc => (hu c hc).2
  have p2LT : ∀ c ∈ p2, jsLineTerm c = false :=
    fun c hc => lineTerm_false_of_space c (p2NS c hc)
  have gitNS : ∀ c ∈ ".git".data, jsSpace c = false := by decide
  have p2gNS : ∀ c ∈ p2 ++ ".git".data, jsSpace c = false :=
    List.forall_mem_append.mpr ⟨p2NS, gitNS⟩
  have p2gLT : ∀ c ∈ p2 ++ ".git".data, jsLineTerm c = false :=
    fun c hc => lineTerm_false_of_space c (p2gNS c hc)
  have p2g1 : p2 ++ ".git".data ≠ [] := by simp [hp1]
  have hcol : ':' ∉ host := fun hm => (hh _ hm).1 rfl
  have hsl : '/' ∉ host := fun hm => (hh _ hm).2.1 rfl
  have hgat : '@' ∉ host := fun hm => (hh _ hm).2.2.1 rfl
  have hpat : '@' ∉ p2 := fun hm => (hp _ hm).1 rfl
  have hpgat : '@' ∉ p2 ++ ".git".data := by
    intro hm
    rcases List.mem_append.mp hm with h | h
    · exact hpat h
    · simp at h
  have huat : '@' ∉ user := fun hm => (hu _ hm).1 rfl
  have hstrip1 : stripDotGit p2 = p2 := stripDotGit_of_not p2 hgit
  have hstrip2 : stripDotGit (p2 ++ ".git".data) = p2 := stripDotGit_append p2
  have nsGitAt : ∀ c ∈ "git@".data, jsSpace c = false := by decide
  have nsSsh : ∀ c ∈ "ssh://".data, jsSpace c = false := by decide
  have nsHttps : ∀ c ∈ "https://".data, jsSpace c = false := by decide
  have nsHttp : ∀ c ∈ "http://".data, jsSpace c = false := by decide
  have nsGitS : ∀ c ∈ "git://".data, jsSpace c = false := by decide
  have nsMid : ∀ q : List Char, (∀ c ∈ q, jsSpace c = false) →
      ∀ c ∈ host ++ '/' :: q, jsSpace c = false := fun q hq =>
    List.forall_mem_append.mpr ⟨hostNS, List.forall_mem_cons.mpr ⟨by decide, hq⟩⟩
  have nsMidU : ∀ q : List Char, (∀ c ∈ q, jsSpace c = false) →
      ∀ c ∈ user ++ '@' :: (host ++ '/' :: q), jsSpace c = false := fun q hq =>
    List.forall_mem_append.mpr ⟨userNS, List.forall_mem_cons.mpr ⟨by decide, nsMid q hq⟩⟩
  have nsSshA : ∀ q : List Char, (∀ c ∈ q, jsSpace c = false) →
      ∀ c ∈ host ++ ':' :: q, jsSpace c = false := fun q hq =>
    List.forall_mem_append.mpr ⟨hostNS, List.forall_mem_cons.mpr ⟨by decide, hq⟩⟩
  have sshCase : ∀ q : List Char, q ≠ [] → (∀ c ∈ q, jsLineTerm c = false) →
      (∀ c ∈ q, jsSpace c = false) →
      normalizeGitUrlCore ("git@".data ++ (host ++ ':' :: q)) =
        some (host ++ '/' :: stripDotGit q) := by
    intro q hq1 hqLT hqNS
    have htrim := jsTrim_eq_self _
      (List.forall_mem_append.mpr ⟨nsGitAt, nsSshA q hqNS⟩)
    simp only [normalizeGitUrlCore, htrim, sshMatch_eval host q hh1 hcol hq1 hqLT]
  have urlCase : ∀ (schData q : List Char), (∀ c ∈ schData, jsSpace c = false) →
      (sshMatch (schData ++ (host ++ '/' :: q)) = none) →
      (urlSchemeSplit (schData ++ (host ++ '/' :: q)) = some (host ++ '/' :: q)) →
      q ≠ [] → (∀ c ∈ q, jsLineTerm c = false) → (∀ c ∈ q, jsSpace c = false) →
      ('@' ∉ q) →
      normalizeGitUrlCore (schData ++ (host ++ '/' :: q)) =
        some (host ++ '/' :: stripDotGit q) := by
    intro schData q hschNS hssh hscheme hq1 hqLT hqNS hqat
    exact normalizeGitUrlCore_scheme schData (host ++ '/' :: q) host q hssh hscheme
      (jsTrim_eq_self _ (List.forall_mem_append.mpr ⟨hschNS, nsMid q hqNS⟩))
      (urlTail_nocreds host q hh1 hsl hgat hq1 hqLT hqat)
  have urlCaseU : ∀ (schData q : List Char), (∀ c ∈ schData, jsSpace c = false) →
      (sshMatch (schData ++ (user ++ '@' :: (host ++ '/' :: q))) = none) →
      (urlSchemeSplit (schData ++ (user ++ '@' :: (host ++ '/' :: q))) =
        some (user ++ '@' :: (host ++ '/' :: q))) →
      q ≠ [] → (∀ c ∈ q, jsLineTerm c = false) → (∀ c ∈ q, jsSpace c = false) →
      normalizeGitUrlCore (schData ++ (user ++ '@' :: (host ++ '/' :: q))) =
        some (host ++ '/' :: stripDotGit q) := by
    intro schData q hschNS hssh hscheme hq1 hqLT hqNS
    exact normalizeGitUrlCore_scheme schData (user ++ '@' :: (host ++ '/' :: q)) host q
      hssh hscheme
      (jsTrim_eq_self _ (List.forall_mem_append.mpr ⟨hschNS, nsMidU q hqNS⟩))
      (urlTail_creds user host q hu1 huat hh1 hsl hq1 hqLT)
  refine ⟨?_, ?_, ?_, ?_, ?_, ?_, ?_, ?_, ?_⟩
  · rw [sshCase p2 hp1 p2LT p2NS, hstrip1]
  · rw [sshCase (p2 ++ ".git".data) p2g1 p2gLT p2gNS, hstrip2]
  · intro sch hsch
    fin_cases hsch
    · exact ⟨by rw [urlCase "ssh://".data p2 nsSsh rfl (urlSchemeSplit_ssh _) hp1 p2LT p2NS hpat, hstrip1],
        by rw [urlCase "ssh://".data (p2 ++ ".git".data) nsSsh rfl (urlSchemeSplit_ssh _) p2g1 p2gLT p2gNS hpgat,
          hstrip2],
        by rw [urlCaseU "ssh://".data p2 nsSsh rfl (urlSchemeSplit_ssh _) hp1 p2LT p2NS, hstrip1],
        by rw [urlCaseU "ssh://".data (p2 ++ ".git".data) nsSsh rfl (urlSchemeSplit_ssh _) p2g1 p2gLT p2gNS,
          hstrip2]⟩
    · exact ⟨by rw [urlCase "https://".data p2 nsHttps rfl (urlSchemeSplit_https _) hp1 p2LT p2NS hpat, hstrip1],
        by rw [urlCase "https://".data (p2 ++ ".git".data) nsHttps rfl (urlSchemeSplit_https _) p2g1 p2gLT p2gNS hpgat,
          hstrip2],
        by rw [urlCaseU "https://".data p2 nsHttps rfl (urlSchemeSplit_https _) hp1 p2LT p2NS, hstrip1],
        by rw [urlCaseU "https://".data (p2 ++ ".git".data) nsHttps rfl (urlSchemeSplit_https _) p2g1 p2gLT p2gNS,
          hstrip2]⟩
    · exact ⟨by rw [urlCase "http://".data p2 nsHttp rfl (urlSchemeSplit_http _) hp1 p2LT p2NS hpat, hstrip1],
        by rw [urlCase "http://".data (p2 ++ ".git".data) nsHttp rfl (urlSchemeSplit_http _) p2g1 p2gLT p2gNS hpgat,
          hstrip2],
        by rw [urlCaseU "http://".data p2 nsHttp rfl (urlSchemeSplit_http _) hp1 p2LT p2NS, hstrip1],
        by rw [urlCaseU "http://".data (p2 ++ ".git".data) nsHttp rfl (urlSchemeSplit_http _) p2g1 p2gLT p2gNS,
          hstrip2]⟩
    · exact ⟨by rw [urlCase "git://".data p2 nsGitS rfl (urlSchemeSplit_git _) hp1 p2LT p2NS hpat, hstrip1],
        by rw [urlCase "git://".data (p2 ++ ".git".data) nsGitS rfl (urlSchemeSplit_git _) p2g1 p2gLT p2gNS hpgat,
          hstrip2],
        by rw [urlCaseU "git://".data p2 nsGitS rfl (urlSchemeSplit_git _) hp1 p2LT p2NS, hstrip1],
        by rw [urlCaseU "git://".data (p2 ++ ".git".data) nsGitS rfl (urlSchemeSplit_git _) p2g1 p2gLT p2gNS,
          hstrip2]⟩
  · rw [sshCase p2 hp1 p2LT p2NS,
      urlCase "https://".data p2 nsHttps rfl (urlSchemeSplit_https _) hp1 p2LT p2NS hpat]
  · intro l rest heq
    simp only [normalizeGitUrlCore, heq]
    rw [show sshMatch ("file://".data ++ rest) = none from rfl]
    rw [show urlMatch ("file://".data ++ rest) = none from rfl]
    simp
  · intro l hno
    have h1 : sshMatch (jsTrim l) = none := by
      unfold sshMatch
      rw [if_neg (fun hx => hno "git@" (by decide) (List.isPrefixOf_iff_prefix.mp hx))]
    have h2 : urlSchemeSplit (jsTrim l) = none := by
      unfold urlSchemeSplit
      rw [if_neg (fun hx => hno "ssh://" (by decide) (List.isPrefixOf_iff_prefix.mp hx)),
        if_neg (fun hx => hno "https://" (by decide) (List.isPrefixOf_iff_prefix.mp hx)),
        if_neg (fun hx => hno "http://" (by decide) (List.isPrefixOf_iff_prefix.mp hx)),
        if_neg (fun hx => hno "git://" (by decide) (List.isPrefixOf_iff_prefix.mp hx))]
    simp only [normalizeGitUrlCore, urlMatch, h1, h2]
    simp
  · decide
  · decide
  · decide

/-- Witness for C3 at a concrete SSH-form URL. -/
theorem normalizeGitUrl_spec_witness :
    normalizeGitUrlCore ("git@".data ++ ("github.com".data ++ ':' :: "u/r".data)) =
      some ("github.com".data ++ '/' :: "u/r".data) :=
  (normalizeGitUrl_spec "github.com".data "u/r".data "alice".data (by decide) (by decide)
    (by decide) (by decide) (by decide) (by decide) (by decide)).1

/-! ## C5: v1/v2 snapshot migration and the derived legacy views -/

/-- Environment for the C5 counterexample: every path exists, identity
resolution fails (pure path hashing). -/
def envC5 : SnapEnv :=
  { pathExists := fun _ => true,
    identify := fun _ => none,
    resolve := id,
    basename := id,
    md5 := id,
    now := "t1" }

/-- A v1 snapshot with one interrupted indexing entry on an existing
path. -/
def v1C5 : CodebaseSnapshotV1 :=
  { indexedCodebases := [],
    indexingCodebases := .obj [("/p", 50)],
    lastUpdated := "t0" }

/-- A v2 snapshot whose entries exercise the lossy parts of the
per-path info round trip: a `limitReached` indexed entry and a failed
entry carrying a `lastAttemptedPercentage`. -/
def v2C5 : CodebaseSnapshotV2 :=
  { codebases := [("/q", .indexed 5 6 .limitReached "t0"),
                  ("/r", .indexfailed "boom" (some 40) "t0")],
    lastUpdated := "t0" }

/-- C5 counterexample: the derived legacy views after migration do not
all equal the original input, even though every path still exists.
(1)-(3): the v1 indexing view contains `/p` before migration but is
empty after it, and the interrupted-indexing progress map is dropped
entirely.  (4)-(5): a v2 `limit_reached` index status reads back as
`completed`, and (6)-(7): a failed v2 entry's `lastAttemptedPercentage`
is lost. -/
theorem snapshotMigration_counterexample :
    (getIndexingCodebases { file := some (.v1 v1C5), writes := 0 } emptyManagerState
      = ["/p"] ∧
    envC5.pathExists "/p" = true ∧
    getIndexingCodebases
      (loadCodebaseSnapshot envC5 { file := some (.v1 v1C5), writes := 0 }
        emptyManagerState).1
      (loadCodebaseSnapshot envC5 { file := some (.v1 v1C5), writes := 0 }
        emptyManagerState).2
      = [] ∧
    (loadCodebaseSnapshot envC5 { file := some (.v1 v1C5), writes := 0 }
      emptyManagerState).2.indexingCodebases = []) ∧
    (alookup v2C5.codebases "/q" = some (.indexed 5 6 .limitReached "t0") ∧
    getCodebaseInfo
      (loadCodebaseSnapshot envC5 { file := some (.v2 v2C5), writes := 0 }
        emptyManagerState).2 "/q"
      = some (.indexed 5 6 .completed "t0") ∧
    alookup v2C5.codebases "/r" = some (.indexfailed "boom" (some 40) "t0") ∧
    getCodebaseInfo
      (loadCodebaseSnapshot envC5 { file := some (.v2 v2C5), writes := 0 }
        emptyManagerState).2 "/r"
      = some (.indexfailed "boom" none "t0")) := by
  refine ⟨⟨?_, ?_, ?_, ?_⟩, ⟨?_, ?_, ?_, ?_⟩⟩ <;> decide

theorem foldl_repositories_invariant {α : Type} (f : ManagerState → α → ManagerState)
    (hf : ∀ s x, (f s x).repositories = s.repositories) :
    ∀ (l : List α) (s : ManagerState), (l.foldl f s).repositories = s.repositories := by
  intro l
  induction l with
  | nil => intro s; rfl
  | cons x xs ih =>
    intro s
    rw [List.foldl_cons, ih, hf]

theorem populateLegacy_repositories (repo : RepoSnapshot) (s : ManagerState) :
    (populateLegacyStateFromRepo repo s).repositories = s.repositories := by
  unfold populateLegacyStateFromRepo
  cases alookup repo.branches (repo.defaultBranch.getD "default") with
  | none => rfl
  | some b =>
    exact foldl_repositories_invariant _ (fun st p => by cases b.status <;> rfl) _ s

theorem buildV3_fold_repositories (env : SnapEnv) :
    ∀ (groups : List (String × RepoGroup)) (st : ManagerState),
      (∀ k ∈ groups.map (fun e => e.1), alookup st.repositories k = none) →
      (groups.map (fun e => e.1)).Nodup →
      (groups.foldl (fun st e =>
        let repoSnapshot := repoSnapshotOfGroup env e.2
        let st1 := { st with
          repositories := aset st.repositories e.1 repoSnapshot,
          pathToCanonicalId :=
            e.2.paths.foldl (fun m p => aset m p e.1) st.pathToCanonicalId }
        populateLegacyStateFromRepo repoSnapshot st1) st).repositories =
      st.repositories ++ groups.map (fun e => (e.1, repoSnapshotOfGroup env e.2)) := by
  intro groups
  induction groups with
  | nil =>
    intro st _ _
    simp
  | cons e gs ih =>
    intro st h hnd
    simp only [List.map_cons, List.nodup_cons] at hnd
    have hnone := h e.1 (by simp)
    have hrepos : (populateLegacyStateFromRepo (repoSnapshotOfGroup env e.2)
        { st with
          repositories := aset st.repositories e.1 (repoSnapshotOfGroup env e.2),
          pathToCanonicalId :=
            e.2.paths.foldl (fun m p => aset m p e.1) st.pathToCanonicalId }).repositories
        = st.repositories ++ [(e.1, repoSnapshotOfGroup env e.2)] := by
      rw [populateLegacy_repositories]
      exact aset_of_alookup_none _ _ _ hnone
    rw [List.foldl_cons]
    rw [ih _ ?hnext hnd.2]
    · rw [hrepos]
      simp
    case hnext =>
      intro k hk
      rw [hrepos, alookup_append, h k (List.mem_cons_of_mem _ hk)]
      have hne : ¬ e.1 = k := fun heq => hnd.1 (heq ▸ hk)
      simp [alookup, hne]

theorem buildV3_state (env : SnapEnv) (groups : List (String × RepoGroup))
    (hnd : (groups.map (fun e => e.1)).Nodup) :
    (buildV3StateFromGroups env groups).repositories =
      groups.map (fun e => (e.1, repoSnapshotOfGroup env e.2)) := by
  have := buildV3_fold_repositories env groups emptyManagerState
    (fun k _ => rfl) hnd
  simpa [buildV3StateFromGroups, emptyManagerState] using this

/-- A v1 snapshot with two indexed paths and one interrupted indexing
entry, for the C5 witness. -/
def v1W5 : CodebaseSnapshotV1 :=
  { indexedCodebases := ["/a", "/b"],
    indexingCodebases := .obj [("/c", 10)],
    lastUpdated := "t0" }

/-- A v2 snapshot with one indexed and one indexing entry, for the C5
witness. -/
def v2W5 : CodebaseSnapshotV2 :=
  { codebases := [("/a", .indexed 3 4 .completed "t0"), ("/c", .indexing 10 "t0")],
    lastUpdated := "t0" }

theorem alookup_mem {β : Type} (m : List (String × β)) (k : String) (v : β)
    (h : alookup m k = some v) : (k, v) ∈ m := by
  induction m with
  | nil => simp [alookup] at h
  | cons e rest ih =>
    by_cases he : e.1 = k
    · simp only [alookup, if_pos he] at h
      cases h
      rw [← he]
      exact List.mem_cons_self _ _
    · simp only [alookup, if_neg he] at h
      exact List.mem_cons_of_mem _ (ih h)

theorem alookup_none_not_key {β : Type} (m : List (String × β)) (k : String)
    (h : alookup m k = none) : k ∉ m.map (fun e => e.1) := by
  induction m with
  | nil => simp
  | cons e rest ih =>
    by_cases he : e.1 = k
    · simp [alookup, he] at h
    · simp only [alookup, if_neg he] at h
      simp only [List.map_cons, List.mem_cons]
      rintro (h2 | h2)
      · exact he h2.symm
      · exact ih h h2

theorem aset_mem_self {β : Type} (m : List (String × β)) (k : String) (v : β) :
    (k, v) ∈ aset m k v := by
  induction m with
  | nil => simp [aset]
  | cons e rest ih =>
    by_cases he : e.1 = k
    · simp only [aset, if_pos he]
      rw [he]
      exact List.mem_cons_self _ _
    · simp only [aset, if_neg he]
      exact List.mem_cons_of_mem _ ih

theorem mem_aset {β : Type} (m : List (String × β)) (k : String) (v : β)
    (x : String × β) (h : x ∈ aset m k v) : x = (k, v) ∨ x ∈ m := by
  induction m with
  | nil =>
    simp [aset] at h
    exact Or.inl h
  | cons e rest ih =>
    by_cases he : e.1 = k
    · simp only [aset, if_pos he] at h
      rcases List.mem_cons.mp h with h2 | h2
      · left
        rw [h2, Prod.ext_iff]
        exact ⟨he, rfl⟩
      · exact Or.inr (List.mem_cons_of_mem _ h2)
    · simp only [aset, if_neg he] at h
      rcases List.mem_cons.mp h with h2 | h2
      · exact Or.inr (h2 ▸ List.mem_cons_self _ _)
      · rcases ih h2 with h3 | h3
        · exact Or.inl h3
        · exact Or.inr (List.mem_cons_of_mem _ h3)

theorem mem_aset_of_ne {β : Type} (m : List (String × β)) (k : String) (v : β)
    (x : String × β) (hx : x ∈ m) (hne : ¬ x.1 = k) : x ∈ aset m k v := by
  induction m with
  | nil => cases hx
  | cons e rest ih =>
    by_cases he : e.1 = k
    · simp only [aset, if_pos he]
      rcases List.mem_cons.mp hx with h2 | h2
      · exact absurd (h2 ▸ he) hne
      · exact List.mem_cons_of_mem _ h2
    · simp only [aset, if_neg he]
      rcases List.mem_cons.mp hx with h2 | h2
      · exact h2 ▸ List.mem_cons_self _ _
      · exact List.mem_cons_of_mem _ (ih h2)

theorem aset_map_fst_some {β : Type} (m : List (String × β)) (k : String) (v w : β)
    (h : alookup m k = some w) :
    (aset m k v).map (fun e => e.1) = m.map (fun e => e.1) := by
  induction m with
  | nil => simp [alookup] at h
  | cons e rest ih =>
    by_cases he : e.1 = k
    · simp [aset, he]
    · simp only [alookup, if_neg he] at h
      simp [aset, he, ih h]

theorem nodup_key_inj {β : Type} (m : List (String × β))
    (hnd : (m.map (fun e => e.1)).Nodup) (x y : String × β)
    (hx : x ∈ m) (hy : y ∈ m) (hk : x.1 = y.1) : x = y := by
  induction m with
  | nil => cases hx
  | cons e rest ih =>
    simp only [List.map_cons, List.nodup_cons] at hnd
    rcases List.mem_cons.mp hx with hx2 | hx2 <;> rcases List.mem_cons.mp hy with hy2 | hy2
    · rw [hx2, hy2]
    · exfalso
      apply hnd.1
      rw [hx2] at hk
      rw [hk]
      exact List.mem_map_of_mem (fun e => e.1) hy2
    · exfalso
      apply hnd.1
      rw [hy2] at hk
      rw [← hk]
      exact List.mem_map_of_mem (fun e => e.1) hx2
    · exact ih hnd.2 hx2 hy2

theorem populateStep_infoMap (b : BranchSnapshot) (st : ManagerState) (q : String) :
    (populateStep b st q).codebaseInfoMap = aset st.codebaseInfoMap q (legacyInfoOfBranch b) := by
  cases hbs : b.status <;> simp [populateStep, legacyInfoOfBranch, hbs]

theorem populateStep_indexing_const (b : BranchSnapshot) (st : ManagerState) (q : String)
    (h : ¬ b.status = BranchStatus.indexing) :
    (populateStep b st q).indexingCodebases = st.indexingCodebases := by
  cases hbs : b.status with
  | indexed => simp [populateStep, hbs]
  | indexing => exact absurd hbs h
  | indexfailed => simp [populateStep, hbs]

theorem populateStep_indexing_set (b : BranchSnapshot) (st : ManagerState) (q : String)
    (h : b.status = BranchStatus.indexing) :
    (populateStep b st q).indexingCodebases =
      aset st.indexingCodebases q (b.indexingPercentage.getD 0) := by
  simp [populateStep, h]

theorem foldl_infoMap_not_mem {F : ManagerState → String → ManagerState} (c : CodebaseInfo)
    (hF : ∀ st q, (F st q).codebaseInfoMap = aset st.codebaseInfoMap q c) :
    ∀ (l : List String) (st : ManagerState) (p : String), p ∉ l →
      alookup (l.foldl F st).codebaseInfoMap p = alookup st.codebaseInfoMap p := by
  intro l
  induction l with
  | nil =>
    intro st p _
    rfl
  | cons q l ih =>
    intro st p hp
    rw [List.foldl_cons, ih _ p (fun h => hp (List.mem_cons_of_mem _ h)), hF]
    exact alookup_aset_ne _ _ _ _ (fun h => hp (List.mem_cons.mpr (Or.inl h.symm)))

theorem foldl_infoMap_mem {F : ManagerState → String → ManagerState} (c : CodebaseInfo)
    (hF : ∀ st q, (F st q).codebaseInfoMap = aset st.codebaseInfoMap q c) :
    ∀ (l : List String) (st : ManagerState) (p : String), p ∈ l →
      alookup (l.foldl F st).codebaseInfoMap p = some c := by
  intro l
  induction l with
  | nil =>
    intro st p hp
    cases hp
  | cons q l ih =>
    intro st p hp
    by_cases hpl : p ∈ l
    · rw [List.foldl_cons]
      exact ih _ p hpl
    · have hpq : p = q := by
        rcases List.mem_cons.mp hp with h | h
        · exact h
        · exact absurd h hpl
      rw [List.foldl_cons, foldl_infoMap_not_mem c hF _ _ p hpl, hF, hpq]
      exact alookup_aset_self _ _ _

theorem foldl_indexingMap_not_mem {F : ManagerState → String → ManagerState} (pct : Nat)
    (hF : ∀ st q, (F st q).indexingCodebases = aset st.indexingCodebases q pct) :
    ∀ (l : List String) (st : ManagerState) (p : String), p ∉ l →
      alookup (l.foldl F st).indexingCodebases p = alookup st.indexingCodebases p := by
  intro l
  induction l with
  | nil =>
    intro st p _
    rfl
  | cons q l ih =>
    intro st p hp
    rw [List.foldl_cons, ih _ p (fun h => hp (List.mem_cons_of_mem _ h)), hF]
    exact alookup_aset_ne _ _ _ _ (fun h => hp (List.mem_cons.mpr (Or.inl h.symm)))

theorem foldl_indexingMap_mem {F : ManagerState → String → ManagerState} (pct : Nat)
    (hF : ∀ st q, (F st q).indexingCodebases = aset st.indexingCodebases q pct) :
    ∀ (l : List String) (st : ManagerState) (p : String), p ∈ l →
      alookup (l.foldl F st).indexingCodebases p = some pct := by
  intro l
  induction l with
  | nil =>
    intro st p hp
    cases hp
  | cons q l ih =>
    intro st p hp
    by_cases hpl : p ∈ l
    · rw [List.foldl_cons]
      exact ih _ p hpl
    · have hpq : p = q := by
        rcases List.mem_cons.mp hp with h | h
        · exact h
        · exact absurd h hpl
      rw [List.foldl_cons, foldl_indexingMap_not_mem pct hF _ _ p hpl, hF, hpq]
      exact alookup_aset_self _ _ _

theorem foldl_indexing_const {F : ManagerState → String → ManagerState}
    (hF : ∀ st q, (F st q).indexingCodebases = st.indexingCodebases) :
    ∀ (l : List String) (st : ManagerState),
      (l.foldl F st).indexingCodebases = st.indexingCodebases := by
  intro l
  induction l with
  | nil =>
    intro st
    rfl
  | cons q l ih =>
    intro st
    rw [List.foldl_cons, ih, hF]

theorem populate_infoMap_mem (repo : RepoSnapshot) (st : ManagerState) (b : BranchSnapshot)
    (hb : alookup repo.branches (repo.defaultBranch.getD "default") = some b)
    (p : String) (hp : p ∈ repo.knownPaths) :
    alookup (populateLegacyStateFromRepo repo st).codebaseInfoMap p =
      some (legacyInfoOfBranch b) := by
  unfold populateLegacyStateFromRepo
  rw [hb]
  exact foldl_infoMap_mem (legacyInfoOfBranch b)
    (fun st2 q => populateStep_infoMap b st2 q) repo.knownPaths st p hp

theorem populate_infoMap_not_mem (repo : RepoSnapshot) (st : ManagerState) (p : String)
    (hp : p ∉ repo.knownPaths) :
    alookup (populateLegacyStateFromRepo repo st).codebaseInfoMap p =
      alookup st.codebaseInfoMap p := by
  unfold populateLegacyStateFromRepo
  cases halt : alookup repo.branches (repo.defaultBranch.getD "default") with
  | none => rfl
  | some b =>
    exact foldl_infoMap_not_mem (legacyInfoOfBranch b)
      (fun st2 q => populateStep_infoMap b st2 q) repo.knownPaths st p hp

theorem populate_indexing_const (repo : RepoSnapshot) (st : ManagerState) (b : BranchSnapshot)
    (hb : alookup repo.branches (repo.defaultBranch.getD "default") = some b)
    (hstat : ¬ b.status = BranchStatus.indexing) :
    (populateLegacyStateFromRepo repo st).indexingCodebases = st.indexingCodebases := by
  unfold populateLegacyStateFromRepo
  rw [hb]
  exact foldl_indexing_const (fun st2 q => populateStep_indexing_const b st2 q hstat)
    repo.knownPaths st

theorem populate_indexing_mem (repo : RepoSnapshot) (st : ManagerState) (b : BranchSnapshot)
    (hb : alookup repo.branches (repo.defaultBranch.getD "default") = some b)
    (hstat : b.status = BranchStatus.indexing)
    (p : String) (hp : p ∈ repo.knownPaths) :
    alookup (populateLegacyStateFromRepo repo st).indexingCodebases p =
      some (b.indexingPercentage.getD 0) := by
  unfold populateLegacyStateFromRepo
  rw [hb]
  exact foldl_indexingMap_mem (b.indexingPercentage.getD 0)
    (fun st2 q => populateStep_indexing_set b st2 q hstat) repo.knownPaths st p hp

theorem populate_indexing_not_mem (repo : RepoSnapshot) (st : ManagerState) (p : String)
    (hp : p ∉ repo.knownPaths) :
    alookup (populateLegacyStateFromRepo repo st).indexingCodebases p =
      alookup st.indexingCodebases p := by
  unfold populateLegacyStateFromRepo
  cases halt : alookup repo.branches (repo.defaultBranch.getD "default") with
  | none => rfl
  | some b =>
    by_cases hstat : b.status = BranchStatus.indexing
    · exact foldl_indexingMap_not_mem (b.indexingPercentage.getD 0)
        (fun st2 q => populateStep_indexing_set b st2 q hstat) repo.knownPaths st p hp
    · show alookup (repo.knownPaths.foldl (populateStep b) st).indexingCodebases p =
        alookup st.indexingCodebases p
      rw [foldl_indexing_const (fun st2 q => populateStep_indexing_const b st2 q hstat)
        repo.knownPaths st]

theorem repoSnapshotOfGroup_branch (env : SnapEnv) (g : RepoGroup) :
    alookup (repoSnapshotOfGroup env g).branches
      ((repoSnapshotOfGroup env g).defaultBranch.getD "default") =
      some (branchSnapshotOfInfo g.info) := by
  simp [repoSnapshotOfGroup, alookup]

theorem buildV3_eq (env : SnapEnv) (groups : List (String × RepoGroup)) :
    buildV3StateFromGroups env groups = groups.foldl (buildStep env) emptyManagerState := rfl

theorem buildStep_infoMap_mem (env : SnapEnv) (st : ManagerState) (e : String × RepoGroup)
    (p : String) (hp : p ∈ e.2.paths) :
    alookup (buildStep env st e).codebaseInfoMap p = some (legacyViewInfo e.2.info) := by
  unfold buildStep
  exact populate_infoMap_mem _ _ _ (repoSnapshotOfGroup_branch env e.2) p hp

theorem buildStep_infoMap_not_mem (env : SnapEnv) (st : ManagerState) (e : String × RepoGroup)
    (p : String) (hp : p ∉ e.2.paths) :
    alookup (buildStep env st e).codebaseInfoMap p = alookup st.codebaseInfoMap p := by
  unfold buildStep
  exact populate_infoMap_not_mem _ _ p hp

theorem buildStep_indexing_mem (env : SnapEnv) (st : ManagerState) (e : String × RepoGroup)
    (p : String) (pct : Nat) (u : String) (hp : p ∈ e.2.paths)
    (hinfo : e.2.info = CodebaseInfo.indexing pct u) :
    alookup (buildStep env st e).indexingCodebases p = some pct := by
  have hstat : (branchSnapshotOfInfo e.2.info).status = BranchStatus.indexing := by
    simp [branchSnapshotOfInfo, hinfo, CodebaseInfo.status]
  have h := populate_indexing_mem (repoSnapshotOfGroup env e.2)
    { st with
      repositories := aset st.repositories e.1 (repoSnapshotOfGroup env e.2),
      pathToCanonicalId := e.2.paths.foldl (fun m p => aset m p e.1) st.pathToCanonicalId }
    (branchSnapshotOfInfo e.2.info) (repoSnapshotOfGroup_branch env e.2) hstat p hp
  have hpct : (branchSnapshotOfInfo e.2.info).indexingPercentage.getD 0 = pct := by
    simp [branchSnapshotOfInfo, hinfo]
  rw [hpct] at h
  exact h

theorem buildStep_indexing_not_mem (env : SnapEnv) (st : ManagerState) (e : String × RepoGroup)
    (p : String) (hp : p ∉ e.2.paths) :
    alookup (buildStep env st e).indexingCodebases p = alookup st.indexingCodebases p := by
  unfold buildStep
  exact populate_indexing_not_mem _ _ p hp

theorem buildStep_indexing_const (env : SnapEnv) (st : ManagerState) (e : String × RepoGroup)
    (h : ¬ e.2.info.status = BranchStatus.indexing) :
    (buildStep env st e).indexingCodebases = st.indexingCodebases := by
  unfold buildStep
  exact populate_indexing_const _ _ (branchSnapshotOfInfo e.2.info)
    (repoSnapshotOfGroup_branch env e.2) (by simpa [branchSnapshotOfInfo] using h)

theorem buildV3_fold_info (env : SnapEnv) (c : CodebaseInfo) :
    ∀ (gs : List (String × RepoGroup)) (st : ManagerState) (p : String),
      ((∃ e ∈ gs, p ∈ e.2.paths) ∨ alookup st.codebaseInfoMap p = some c) →
      (∀ e ∈ gs, p ∈ e.2.paths → legacyViewInfo e.2.info = c) →
      alookup ((gs.foldl (buildStep env) st).codebaseInfoMap) p = some c := by
  intro gs
  induction gs with
  | nil =>
    intro st p h _
    rcases h with ⟨e, he, _⟩ | h
    · cases he
    · exact h
  | cons e gs ih =>
    intro st p h hall
    rw [List.foldl_cons]
    by_cases hp : p ∈ e.2.paths
    · apply ih _ p
      · right
        rw [buildStep_infoMap_mem env st e p hp]
        rw [hall e (List.mem_cons_self _ _) hp]
      · exact fun e2 he2 hp2 => hall e2 (List.mem_cons_of_mem _ he2) hp2
    · apply ih _ p
      · rcases h with ⟨e2, he2, hp2⟩ | h
        · rcases List.mem_cons.mp he2 with he3 | he3
          · exact absurd (he3 ▸ hp2) hp
          · exact Or.inl ⟨e2, he3, hp2⟩
        · right
          rw [buildStep_infoMap_not_mem env st e p hp]
          exact h
      · exact fun e2 he2 hp2 => hall e2 (List.mem_cons_of_mem _ he2) hp2

theorem buildV3_fold_indexing (env : SnapEnv) (pct : Nat) :
    ∀ (gs : List (String × RepoGroup)) (st : ManagerState) (p : String),
      ((∃ e ∈ gs, p ∈ e.2.paths) ∨ alookup st.indexingCodebases p = some pct) →
      (∀ e ∈ gs, p ∈ e.2.paths → ∃ u, e.2.info = CodebaseInfo.indexing pct u) →
      alookup ((gs.foldl (buildStep env) st).indexingCodebases) p = some pct := by
  intro gs
  induction gs with
  | nil =>
    intro st p h _
    rcases h with ⟨e, he, _⟩ | h
    · cases he
    · exact h
  | cons e gs ih =>
    intro st p h hall
    rw [List.foldl_cons]
    by_cases hp : p ∈ e.2.paths
    · apply ih _ p
      · right
        obtain ⟨u, hu⟩ := hall e (List.mem_cons_self _ _) hp
        exact buildStep_indexing_mem env st e p pct u hp hu
      · exact fun e2 he2 hp2 => hall e2 (List.mem_cons_of_mem _ he2) hp2
    · apply ih _ p
      · rcases h with ⟨e2, he2, hp2⟩ | h
        · rcases List.mem_cons.mp he2 with he3 | he3
          · exact absurd (he3 ▸ hp2) hp
          · exact Or.inl ⟨e2, he3, hp2⟩
        · right
          rw [buildStep_indexing_not_mem env st e p hp]
          exact h
      · exact fun e2 he2 hp2 => hall e2 (List.mem_cons_of_mem _ he2) hp2

theorem buildV3_fold_indexing_empty (env : SnapEnv) :
    ∀ (gs : List (String × RepoGroup)) (st : ManagerState),
      (∀ e ∈ gs, ¬ e.2.info.status = BranchStatus.indexing) →
      (gs.foldl (buildStep env) st).indexingCodebases = st.indexingCodebases := by
  intro gs
  induction gs with
  | nil =>
    intro st _
    rfl
  | cons e gs ih =>
    intro st hall
    rw [List.foldl_cons, ih _ (fun e2 he2 => hall e2 (List.mem_cons_of_mem _ he2)),
      buildStep_indexing_const env st e (hall e (List.mem_cons_self _ _))]

theorem fold_v3_view (env : SnapEnv) (X : BranchStatus) :
    ∀ (L : List (String × RepoGroup)) (acc : List String),
      ((L.map (fun g => (g.1, repoSnapshotOfGroup env g.2))).foldl
        (fun acc2 e => match alookup e.2.branches (e.2.defaultBranch.getD "default") with
          | some b => if b.status = X then acc2 ++ e.2.knownPaths else acc2
          | none => acc2) acc)
      = acc ++ ((L.filter (fun g => g.2.info.status = X)).map
          (fun g => g.2.paths)).flatten := by
  intro L
  induction L with
  | nil =>
    intro acc
    simp
  | cons g L ih =>
    intro acc
    rw [List.map_cons, List.foldl_cons, ih]
    by_cases hs : g.2.info.status = X
    · simp [repoSnapshotOfGroup, alookup, branchSnapshotOfInfo, hs, List.filter_cons]
    · simp [repoSnapshotOfGroup, alookup, branchSnapshotOfInfo, hs, List.filter_cons]

theorem migrateV1_invariant (env : SnapEnv) :
    ∀ (ps : List String) (acc : List (String × RepoGroup)),
      (acc.map (fun e => e.1)).Nodup →
      (∀ e ∈ acc, e.2.info = CodebaseInfo.indexed 0 0 IndexStatusTag.completed env.now) →
      (((ps.foldl (migrateV1Step env) acc).map (fun e => e.1)).Nodup ∧
       (∀ e ∈ ps.foldl (migrateV1Step env) acc,
         e.2.info = CodebaseInfo.indexed 0 0 IndexStatusTag.completed env.now) ∧
       (∀ p, (∃ e ∈ ps.foldl (migrateV1Step env) acc, p ∈ e.2.paths) ↔
         ((∃ e ∈ acc, p ∈ e.2.paths) ∨ (p ∈ ps ∧ env.pathExists p = true)))) := by
  intro ps
  induction ps with
  | nil =>
    intro acc hK hI
    refine ⟨hK, hI, ?_⟩
    intro p
    simp
  | cons q ps ih =>
    intro acc hK hI
    rw [List.foldl_cons]
    by_cases hex : env.pathExists q = true
    · have hexF : ¬ env.pathExists q = false := by simp [hex]
      cases halook : alookup acc (snapCanonicalId env q) with
      | some g =>
        have hgmem : (snapCanonicalId env q, g) ∈ acc := alookup_mem _ _ _ halook
        have hstep : migrateV1Step env acc q =
            aset acc (snapCanonicalId env q)
              (if q ∈ g.paths then g else { g with paths := g.paths ++ [q] }) := by
          unfold migrateV1Step
          rw [if_neg hexF]
          simp only [halook]
        have hsub : g.paths ⊆ (if q ∈ g.paths then g
            else { g with paths := g.paths ++ [q] }).paths := by
          split
          · exact fun a ha => ha
          · exact fun a ha => List.mem_append.mpr (Or.inl ha)
        have hqmem : q ∈ (if q ∈ g.paths then g
            else { g with paths := g.paths ++ [q] }).paths := by
          split
          · assumption
          · simp
        have hpaths : ∀ p, p ∈ (if q ∈ g.paths then g
            else { g with paths := g.paths ++ [q] }).paths → p ∈ g.paths ∨ p = q := by
          intro p hp
          by_cases hqg : q ∈ g.paths
          · rw [if_pos hqg] at hp
            exact Or.inl hp
          · rw [if_neg hqg] at hp
            rcases List.mem_append.mp hp with h | h
            · exact Or.inl h
            · exact Or.inr (List.mem_singleton.mp h)
        have hinfo : (if q ∈ g.paths then g
            else { g with paths := g.paths ++ [q] }).info = g.info := by
          split
          · rfl
          · rfl
        rw [hstep]
        have hK' : ((aset acc (snapCanonicalId env q)
            (if q ∈ g.paths then g
              else { g with paths := g.paths ++ [q] })).map (fun e => e.1)).Nodup := by
          rw [aset_map_fst_some _ _ _ g halook]
          exact hK
        have hI' : ∀ e ∈ aset acc (snapCanonicalId env q)
            (if q ∈ g.paths then g else { g with paths := g.paths ++ [q] }),
            e.2.info = CodebaseInfo.indexed 0 0 IndexStatusTag.completed env.now := by
          intro e he
          rcases mem_aset _ _ _ _ he with h | h
          · rw [h]
            exact hinfo.trans (hI _ hgmem)
          · exact hI e h
        obtain ⟨K2, I2, M2⟩ := ih _ hK' hI'
        refine ⟨K2, I2, ?_⟩
        intro p
        rw [M2 p]
        constructor
        · rintro (⟨e, he, hp⟩ | ⟨hmem, hpe⟩)
          · rcases mem_aset _ _ _ _ he with h | h
            · rw [h] at hp
              rcases hpaths p hp with h2 | h2
              · exact Or.inl ⟨(snapCanonicalId env q, g), hgmem, h2⟩
              · exact Or.inr ⟨h2 ▸ List.mem_cons_self _ _, h2 ▸ hex⟩
            · exact Or.inl ⟨e, h, hp⟩
          · exact Or.inr ⟨List.mem_cons_of_mem _ hmem, hpe⟩
        · rintro (⟨e, he, hp⟩ | ⟨hmem, hpe⟩)
          · by_cases hek : e.1 = snapCanonicalId env q
            · have heg : e = (snapCanonicalId env q, g) :=
                nodup_key_inj _ hK _ _ he hgmem hek
              refine Or.inl ⟨_, aset_mem_self _ _ _, ?_⟩
              apply hsub
              rw [heg] at hp
              exact hp
            · exact Or.inl ⟨e, mem_aset_of_ne _ _ _ _ he hek, hp⟩
          · rcases List.mem_cons.mp hmem with h2 | h2
            · refine Or.inl ⟨_, aset_mem_self _ _ _, ?_⟩
              rw [h2]
              exact hqmem
            · exact Or.inr ⟨h2, hpe⟩
      | none =>
        have hstep : migrateV1Step env acc q = acc ++ [(snapCanonicalId env q,
            { identity := (env.identify q).getD (createFallbackIdentity env q),
              paths := [q],
              info := CodebaseInfo.indexed 0 0 IndexStatusTag.completed env.now })] := by
          unfold migrateV1Step
          rw [if_neg hexF]
          simp only [halook]
        rw [hstep]
        generalize hgnew : ({ identity := (env.identify q).getD (createFallbackIdentity env q), paths := [q], info := CodebaseInfo.indexed 0 0 IndexStatusTag.completed env.now } : RepoGroup) = gNew
        have hgpaths : gNew.paths = [q] := by
          rw [← hgnew]
        have hginfo : gNew.info = CodebaseInfo.indexed 0 0 IndexStatusTag.completed env.now := by
          rw [← hgnew]
        have hK' : ((acc ++ [(snapCanonicalId env q, gNew)]).map (fun e => e.1)).Nodup := by
          rw [List.map_append, List.nodup_append]
          refine ⟨hK, by simp, ?_⟩
          intro a ha hb
          simp only [List.map_cons, List.map_nil, List.mem_singleton] at hb
          rw [hb] at ha
          exact alookup_none_not_key _ _ halook ha
        have hI' : ∀ e ∈ acc ++ [(snapCanonicalId env q, gNew)],
            e.2.info = CodebaseInfo.indexed 0 0 IndexStatusTag.completed env.now := by
          intro e he
          rcases List.mem_append.mp he with h | h
          · exact hI e h
          · rw [List.mem_singleton.mp h]
            exact hginfo
        obtain ⟨K2, I2, M2⟩ := ih _ hK' hI'
        refine ⟨K2, I2, ?_⟩
        intro p
        rw [M2 p]
        constructor
        · rintro (⟨e, he, hp⟩ | ⟨hmem, hpe⟩)
          · rcases List.mem_append.mp he with h | h
            · exact Or.inl ⟨e, h, hp⟩
            · rw [List.mem_singleton.mp h] at hp
              rw [show ((snapCanonicalId env q, gNew) : String × RepoGroup).2.paths
                = gNew.paths from rfl, hgpaths] at hp
              have hpq : p = q := List.mem_singleton.mp hp
              exact Or.inr ⟨hpq ▸ List.mem_cons_self _ _, hpq ▸ hex⟩
          · exact Or.inr ⟨List.mem_cons_of_mem _ hmem, hpe⟩
        · rintro (⟨e, he, hp⟩ | ⟨hmem, hpe⟩)
          · exact Or.inl ⟨e, List.mem_append.mpr (Or.inl he), hp⟩
          · rcases List.mem_cons.mp hmem with h2 | h2
            · refine Or.inl ⟨_, List.mem_append.mpr (Or.inr (List.mem_singleton.mpr rfl)), ?_⟩
              rw [show ((snapCanonicalId env q, gNew) : String × RepoGroup).2.paths
                = gNew.paths from rfl, hgpaths, h2]
              exact List.mem_singleton.mpr rfl
            · exact Or.inr ⟨h2, hpe⟩
    · have hexF : env.pathExists q = false := by
        cases hpe : env.pathExists q
        · rfl
        · exact absurd hpe hex
      have hstep : migrateV1Step env acc q = acc := by
        unfold migrateV1Step
        rw [if_pos hexF]
      rw [hstep]
      obtain ⟨K2, I2, M2⟩ := ih _ hK hI
      refine ⟨K2, I2, ?_⟩
      intro p
      rw [M2 p]
      constructor
      · rintro (h | ⟨hmem, hpe⟩)
        · exact Or.inl h
        · exact Or.inr ⟨List.mem_cons_of_mem _ hmem, hpe⟩
      · rintro (h | ⟨hmem, hpe⟩)
        · exact Or.inl h
        · rcases List.mem_cons.mp hmem with h2 | h2
          · rw [h2, hexF] at hpe
            cases hpe
          · exact Or.inr ⟨h2, hpe⟩

theorem migrateV2_invariant (env : SnapEnv) :
    ∀ (es : List (String × CodebaseInfo)) (acc : List (String × RepoGroup)),
      (acc.map (fun e => e.1)).Nodup →
      (∀ e ∈ acc, ∀ p ∈ e.2.paths, e.1 = snapCanonicalId env p) →
      (((es.foldl (migrateV2Step env) acc).map (fun e => e.1)).Nodup ∧
       (∀ e ∈ es.foldl (migrateV2Step env) acc, ∀ p ∈ e.2.paths,
         e.1 = snapCanonicalId env p) ∧
       (∀ p, (∃ e ∈ es.foldl (migrateV2Step env) acc, p ∈ e.2.paths) ↔
         ((∃ e ∈ acc, p ∈ e.2.paths) ∨
          (env.pathExists p = true ∧ ∃ i, (p, i) ∈ es))) ∧
       (∀ e ∈ es.foldl (migrateV2Step env) acc,
         (e.2.info.status = BranchStatus.indexed ↔
          ((∃ e0 ∈ acc, e0.1 = e.1 ∧ e0.2.info.status = BranchStatus.indexed) ∨
           (∃ x ∈ es, env.pathExists x.1 = true ∧ snapCanonicalId env x.1 = e.1 ∧
             x.2.status = BranchStatus.indexed)))) ∧
       (∀ e ∈ es.foldl (migrateV2Step env) acc,
         ((∃ e0 ∈ acc, e0.1 = e.1 ∧ e.2.info = e0.2.info) ∨
          (∃ x ∈ es, env.pathExists x.1 = true ∧ snapCanonicalId env x.1 = e.1 ∧
            e.2.info = x.2)))) := by
  intro es
  induction es with
  | nil =>
    intro acc hK hPC
    refine ⟨hK, hPC, ?_, ?_, ?_⟩
    · intro p
      simp
    · intro e he
      rw [List.foldl_nil] at he
      constructor
      · intro hs
        exact Or.inl ⟨e, he, rfl, hs⟩
      · rintro (⟨e0, he0, hkey, hs⟩ | ⟨y, hy, _⟩)
        · have := nodup_key_inj _ hK _ _ he0 he hkey
          rw [this] at hs
          exact hs
        · cases hy
    · intro e he
      rw [List.foldl_nil] at he
      exact Or.inl ⟨e, he, rfl, rfl⟩
  | cons x es ih =>
    intro acc hK hPC
    rw [List.foldl_cons]
    by_cases hex : env.pathExists x.1 = true
    · have hexF : ¬ env.pathExists x.1 = false := by simp [hex]
      cases halook : alookup acc (snapCanonicalId env x.1) with
      | some g =>
        have hgmem : (snapCanonicalId env x.1, g) ∈ acc := alookup_mem _ _ _ halook
        have hstep : migrateV2Step env acc x =
            aset acc (snapCanonicalId env x.1)
              (if x.2.status = BranchStatus.indexed ∧
                  (if x.1 ∈ g.paths then g
                    else { g with paths := g.paths ++ [x.1] }).info.status ≠
                    BranchStatus.indexed then
                { (if x.1 ∈ g.paths then g
                    else { g with paths := g.paths ++ [x.1] }) with info := x.2 }
              else if x.1 ∈ g.paths then g
                else { g with paths := g.paths ++ [x.1] }) := by
          unfold migrateV2Step
          rw [if_neg hexF]
          simp only [halook]
        obtain ⟨g1, hg1⟩ : ∃ g1, (if x.1 ∈ g.paths then g
            else { g with paths := g.paths ++ [x.1] }) = g1 := ⟨_, rfl⟩
        rw [hg1] at hstep
        obtain ⟨g2, hg2⟩ : ∃ g2, (if x.2.status = BranchStatus.indexed ∧
            g1.info.status ≠ BranchStatus.indexed then
            { g1 with info := x.2 } else g1) = g2 := ⟨_, rfl⟩
        rw [hg2] at hstep
        have hg1sub : g.paths ⊆ g1.paths := by
          rw [← hg1]
          split
          · exact fun a ha => ha
          · exact fun a ha => List.mem_append.mpr (Or.inl ha)
        have hg1x : x.1 ∈ g1.paths := by
          rw [← hg1]
          split
          · assumption
          · simp
        have hg1cases : ∀ p ∈ g1.paths, p ∈ g.paths ∨ p = x.1 := by
          rw [← hg1]
          split
          · exact fun p hp => Or.inl hp
          · intro p hp
            rcases List.mem_append.mp hp with h | h
            · exact Or.inl h
            · exact Or.inr (List.mem_singleton.mp h)
        have hg1info : g1.info = g.info := by
          rw [← hg1]
          split <;> rfl
        have hg2paths : g2.paths = g1.paths := by
          rw [← hg2]
          split <;> rfl
        have hg2info : g2.info = x.2 ∨ g2.info = g.info := by
          rw [← hg2]
          split
          · exact Or.inl rfl
          · exact Or.inr hg1info
        have hg2ind : g2.info.status = BranchStatus.indexed ↔
            (g.info.status = BranchStatus.indexed ∨
              x.2.status = BranchStatus.indexed) := by
          rw [← hg2]
          by_cases hcond : x.2.status = BranchStatus.indexed ∧
              g1.info.status ≠ BranchStatus.indexed
          · rw [if_pos hcond]
            show x.2.status = BranchStatus.indexed ↔ _
            exact ⟨fun h => Or.inr h, fun _ => hcond.1⟩
          · rw [if_neg hcond, hg1info]
            constructor
            · exact fun h => Or.inl h
            · rintro (h | h)
              · exact h
              · by_cases hgind : g1.info.status = BranchStatus.indexed
                · rw [← hg1info]
                  exact hgind
                · exact absurd ⟨h, hgind⟩ hcond
        rw [hstep]
        have hK' : ((aset acc (snapCanonicalId env x.1) g2).map (fun e => e.1)).Nodup := by
          rw [aset_map_fst_some _ _ _ g halook]
          exact hK
        have hPC' : ∀ e ∈ aset acc (snapCanonicalId env x.1) g2,
            ∀ p ∈ e.2.paths, e.1 = snapCanonicalId env p := by
          intro e he p hp
          rcases mem_aset _ _ _ _ he with h | h
          · rw [h] at hp ⊢
            have hp2 : p ∈ g2.paths := hp
            rw [hg2paths] at hp2
            rcases hg1cases p hp2 with h2 | h2
            · exact hPC _ hgmem p h2
            · rw [h2]
          · exact hPC e h p hp
        obtain ⟨K2, PC2, M2, S2, D2⟩ := ih _ hK' hPC'
        refine ⟨K2, PC2, ?_, ?_, ?_⟩
        · intro p
          rw [M2 p]
          constructor
          · rintro (⟨e, he, hp⟩ | ⟨hpe, i, hi⟩)
            · rcases mem_aset _ _ _ _ he with h | h
              · rw [h] at hp
                have hp2 : p ∈ g2.paths := hp
                rw [hg2paths] at hp2
                rcases hg1cases p hp2 with h2 | h2
                · exact Or.inl ⟨(snapCanonicalId env x.1, g), hgmem, h2⟩
                · exact Or.inr ⟨h2 ▸ hex, x.2, h2 ▸ List.mem_cons_self _ _⟩
              · exact Or.inl ⟨e, h, hp⟩
            · exact Or.inr ⟨hpe, i, List.mem_cons_of_mem _ hi⟩
          · rintro (⟨e, he, hp⟩ | ⟨hpe, i, hi⟩)
            · by_cases hek : e.1 = snapCanonicalId env x.1
              · have heg : e = (snapCanonicalId env x.1, g) :=
                  nodup_key_inj _ hK _ _ he hgmem hek
                refine Or.inl ⟨(snapCanonicalId env x.1, g2), aset_mem_self _ _ _, ?_⟩
                show p ∈ g2.paths
                rw [hg2paths]
                apply hg1sub
                rw [heg] at hp
                exact hp
              · exact Or.inl ⟨e, mem_aset_of_ne _ _ _ _ he hek, hp⟩
            · rcases List.mem_cons.mp hi with h2 | h2
              · have hpx : p = x.1 := congrArg Prod.fst h2
                refine Or.inl ⟨(snapCanonicalId env x.1, g2), aset_mem_self _ _ _, ?_⟩
                show p ∈ g2.paths
                rw [hg2paths, hpx]
                exact hg1x
              · exact Or.inr ⟨hpe, i, h2⟩
        · intro e he
          rw [S2 e he]
          constructor
          · rintro (⟨e0, he0, hkey, hs⟩ | ⟨y, hy, hye, hyc, hys⟩)
            · rcases mem_aset _ _ _ _ he0 with h | h
              · have hkey2 : snapCanonicalId env x.1 = e.1 := by
                  rw [← hkey]
                  exact congrArg Prod.fst h.symm
                have hs2 : g2.info.status = BranchStatus.indexed := by
                  rw [h] at hs
                  exact hs
                rcases hg2ind.mp hs2 with hgi | hxi
                · exact Or.inl ⟨(snapCanonicalId env x.1, g), hgmem, hkey2, hgi⟩
                · exact Or.inr ⟨x, List.mem_cons_self _ _, hex, hkey2, hxi⟩
              · exact Or.inl ⟨e0, h, hkey, hs⟩
            · exact Or.inr ⟨y, List.mem_cons_of_mem _ hy, hye, hyc, hys⟩
          · rintro (⟨e0, he0, hkey, hs⟩ | ⟨y, hy, hye, hyc, hys⟩)
            · by_cases hek : e0.1 = snapCanonicalId env x.1
              · have he0g : e0 = (snapCanonicalId env x.1, g) :=
                  nodup_key_inj _ hK _ _ he0 hgmem hek
                refine Or.inl ⟨(snapCanonicalId env x.1, g2), aset_mem_self _ _ _, ?_, ?_⟩
                · rw [← hkey]
                  show snapCanonicalId env x.1 = e0.1
                  exact congrArg Prod.fst he0g.symm
                · have hs2 : g.info.status = BranchStatus.indexed := by
                    rw [he0g] at hs
                    exact hs
                  exact hg2ind.mpr (Or.inl hs2)
              · exact Or.inl ⟨e0, mem_aset_of_ne _ _ _ _ he0 hek, hkey, hs⟩
            · rcases List.mem_cons.mp hy with h2 | h2
              · refine Or.inl ⟨(snapCanonicalId env x.1, g2), aset_mem_self _ _ _, ?_, ?_⟩
                · rw [← hyc, h2]
                · have hys2 : x.2.status = BranchStatus.indexed := by
                    rw [h2] at hys
                    exact hys
                  exact hg2ind.mpr (Or.inr hys2)
              · exact Or.inr ⟨y, h2, hye, hyc, hys⟩
        · intro e he
          rcases D2 e he with ⟨e0, he0, hkey, hinfo⟩ | ⟨y, hy, hye, hyc, hyi⟩
          · rcases mem_aset _ _ _ _ he0 with h | h
            · have hkey2 : snapCanonicalId env x.1 = e.1 := by
                rw [← hkey]
                exact congrArg Prod.fst h.symm
              have hinfo2 : e.2.info = g2.info := by
                rw [h] at hinfo
                exact hinfo
              rcases hg2info with hgi | hgi
              · exact Or.inr ⟨x, List.mem_cons_self _ _, hex, hkey2, hinfo2.trans hgi⟩
              · exact Or.inl ⟨(snapCanonicalId env x.1, g), hgmem, hkey2, hinfo2.trans hgi⟩
            · exact Or.inl ⟨e0, h, hkey, hinfo⟩
          · exact Or.inr ⟨y, List.mem_cons_of_mem _ hy, hye, hyc, hyi⟩
      | none =>
        have hstep : migrateV2Step env acc x = acc ++ [(snapCanonicalId env x.1,
            { identity := (env.identify x.1).getD (createFallbackIdentity env x.1),
              paths := [x.1], info := x.2 })] := by
          unfold migrateV2Step
          rw [if_neg hexF]
          simp only [halook]
        rw [hstep]
        generalize hgnew : ({ identity := (env.identify x.1).getD (createFallbackIdentity env x.1), paths := [x.1], info := x.2 } : RepoGroup) = gNew
        have hgpaths : gNew.paths = [x.1] := by
          rw [← hgnew]
        have hginfo : gNew.info = x.2 := by
          rw [← hgnew]
        have hK' : ((acc ++ [(snapCanonicalId env x.1, gNew)]).map (fun e => e.1)).Nodup := by
          rw [List.map_append, List.nodup_append]
          refine ⟨hK, by simp, ?_⟩
          intro a ha hb
          simp only [List.map_cons, List.map_nil, List.mem_singleton] at hb
          rw [hb] at ha
          exact alookup_none_not_key _ _ halook ha
        have hPC' : ∀ e ∈ acc ++ [(snapCanonicalId env x.1, gNew)],
            ∀ p ∈ e.2.paths, e.1 = snapCanonicalId env p := by
          intro e he p hp
          rcases List.mem_append.mp he with h | h
          · exact hPC e h p hp
          · rw [List.mem_singleton.mp h] at hp ⊢
            have hp2 : p ∈ gNew.paths := hp
            rw [hgpaths] at hp2
            rw [List.mem_singleton.mp hp2]
        obtain ⟨K2, PC2, M2, S2, D2⟩ := ih _ hK' hPC'
        refine ⟨K2, PC2, ?_, ?_, ?_⟩
        · intro p
          rw [M2 p]
          constructor
          · rintro (⟨e, he, hp⟩ | ⟨hpe, i, hi⟩)
            · rcases List.mem_append.mp he with h | h
              · exact Or.inl ⟨e, h, hp⟩
              · rw [List.mem_singleton.mp h] at hp
                have hp2 : p ∈ gNew.paths := hp
                rw [hgpaths] at hp2
                have hpx : p = x.1 := List.mem_singleton.mp hp2
                exact Or.inr ⟨hpx ▸ hex, x.2, hpx ▸ List.mem_cons_self _ _⟩
            · exact Or.inr ⟨hpe, i, List.mem_cons_of_mem _ hi⟩
          · rintro (⟨e, he, hp⟩ | ⟨hpe, i, hi⟩)
            · exact Or.inl ⟨e, List.mem_append.mpr (Or.inl he), hp⟩
            · rcases List.mem_cons.mp hi with h2 | h2
              · have hpx : p = x.1 := congrArg Prod.fst h2
                refine Or.inl ⟨(snapCanonicalId env x.1, gNew),
                  List.mem_append.mpr (Or.inr (List.mem_singleton.mpr rfl)), ?_⟩
                show p ∈ gNew.paths
                rw [hgpaths, hpx]
                exact List.mem_singleton.mpr rfl
              · exact Or.inr ⟨hpe, i, h2⟩
        · intro e he
          rw [S2 e he]
          constructor
          · rintro (⟨e0, he0, hkey, hs⟩ | ⟨y, hy, hye, hyc, hys⟩)
            · rcases List.mem_append.mp he0 with h | h
              · exact Or.inl ⟨e0, h, hkey, hs⟩
              · have he0g : e0 = (snapCanonicalId env x.1, gNew) := List.mem_singleton.mp h
                have hkey2 : snapCanonicalId env x.1 = e.1 := by
                  rw [← hkey]
                  exact congrArg Prod.fst he0g.symm
                have hs2 : x.2.status = BranchStatus.indexed := by
                  rw [he0g] at hs
                  have hs3 : gNew.info.status = BranchStatus.indexed := hs
                  rw [hginfo] at hs3
                  exact hs3
                exact Or.inr ⟨x, List.mem_cons_self _ _, hex, hkey2, hs2⟩
            · exact Or.inr ⟨y, List.mem_cons_of_mem _ hy, hye, hyc, hys⟩
          · rintro (⟨e0, he0, hkey, hs⟩ | ⟨y, hy, hye, hyc, hys⟩)
            · exact Or.inl ⟨e0, List.mem_append.mpr (Or.inl he0), hkey, hs⟩
            · rcases List.mem_cons.mp hy with h2 | h2
              · refine Or.inl ⟨(snapCanonicalId env x.1, gNew),
                  List.mem_append.mpr (Or.inr (List.mem_singleton.mpr rfl)), ?_, ?_⟩
                · rw [← hyc, h2]
                · show gNew.info.status = BranchStatus.indexed
                  rw [hginfo]
                  rw [h2] at hys
                  exact hys
              · exact Or.inr ⟨y, h2, hye, hyc, hys⟩
        · intro e he
          rcases D2 e he with ⟨e0, he0, hkey, hinfo⟩ | ⟨y, hy, hye, hyc, hyi⟩
          · rcases List.mem_append.mp he0 with h | h
            · exact Or.inl ⟨e0, h, hkey, hinfo⟩
            · have he0g : e0 = (snapCanonicalId env x.1, gNew) := List.mem_singleton.mp h
              have hkey2 : snapCanonicalId env x.1 = e.1 := by
                rw [← hkey]
                exact congrArg Prod.fst he0g.symm
              have hinfo2 : e.2.info = x.2 := by
                rw [he0g] at hinfo
                have hinfo3 : e.2.info = gNew.info := hinfo
                rw [hginfo] at hinfo3
                exact hinfo3
              exact Or.inr ⟨x, List.mem_cons_self _ _, hex, hkey2, hinfo2⟩
          · exact Or.inr ⟨y, List.mem_cons_of_mem _ hy, hye, hyc, hyi⟩
    · have hexF : env.pathExists x.1 = false := by
        cases hpe : env.pathExists x.1
        · rfl
        · exact absurd hpe hex
      have hstep : migrateV2Step env acc x = acc := by
        unfold migrateV2Step
        rw [if_pos hexF]
      rw [hstep]
      obtain ⟨K2, PC2, M2, S2, D2⟩ := ih acc hK hPC
      refine ⟨K2, PC2, ?_, ?_, ?_⟩
      · intro p
        rw [M2 p]
        constructor
        · rintro (h | ⟨hpe, i, hi⟩)
          · exact Or.inl h
          · exact Or.inr ⟨hpe, i, List.mem_cons_of_mem _ hi⟩
        · rintro (h | ⟨hpe, i, hi⟩)
          · exact Or.inl h
          · rcases List.mem_cons.mp hi with h2 | h2
            · have hpx : p = x.1 := congrArg Prod.fst h2
              rw [hpx, hexF] at hpe
              cases hpe
            · exact Or.inr ⟨hpe, i, h2⟩
      · intro e he
        rw [S2 e he]
        constructor
        · rintro (h | ⟨y, hy, hye, hyc, hys⟩)
          · exact Or.inl h
          · exact Or.inr ⟨y, List.mem_cons_of_mem _ hy, hye, hyc, hys⟩
        · rintro (h | ⟨y, hy, hye, hyc, hys⟩)
          · exact Or.inl h
          · rcases List.mem_cons.mp hy with h2 | h2
            · rw [h2, hexF] at hye
              cases hye
            · exact Or.inr ⟨y, h2, hye, hyc, hys⟩
      · intro e he
        rcases D2 e he with h | ⟨y, hy, hye, hyc, hyi⟩
        · exact Or.inl h
        · exact Or.inr ⟨y, List.mem_cons_of_mem _ hy, hye, hyc, hyi⟩

/-- **C5** (amended). Loading a v1 or v2 snapshot migrates it to v3 and
writes the file back exactly once as a v3 snapshot of the migrated
repositories.  The indexed legacy view read back from the migrated file
holds exactly the original indexed paths that still exist on disk (for
v2: the still-existing paths some same-repository entry of which is
`indexed`).  A migrated v1 snapshot's indexing view and progress map
are empty — v1 `indexingCodebases` entries are dropped — while every
path in a migrated v2 snapshot's indexing view keeps a progress
percentage originating from a same-repository entry of the input.  The
per-path `CodebaseInfo` view after migration is the v3 round trip
(`legacyViewInfo`) of a same-repository entry's info — so a
`limitReached` status reads back as `completed` and
`lastAttemptedPercentage` is lost — and v1 paths get a synthesized
`indexed 0 0 completed` info stamped with the migration time. -/
theorem snapshotMigration_spec (env : SnapEnv) (v1s : CodebaseSnapshotV1)
    (v2s : CodebaseSnapshotV2) (n : Nat) :
    ((loadCodebaseSnapshot env { file := some (.v1 v1s), writes := n }
        emptyManagerState).1.writes = n + 1
      ∧ (loadCodebaseSnapshot env { file := some (.v1 v1s), writes := n }
          emptyManagerState).1.file
        = some (.v3 { repositories := (migrateV1ToV3 env v1s).repositories, lastUpdated := env.now })
      ∧ (∀ p, p ∈ getIndexedCodebases
          (loadCodebaseSnapshot env { file := some (.v1 v1s), writes := n }
            emptyManagerState).1
          (loadCodebaseSnapshot env { file := some (.v1 v1s), writes := n }
            emptyManagerState).2 ↔
          (p ∈ v1s.indexedCodebases ∧ env.pathExists p = true))
      ∧ getIndexingCodebases
          (loadCodebaseSnapshot env { file := some (.v1 v1s), writes := n }
            emptyManagerState).1
          (loadCodebaseSnapshot env { file := some (.v1 v1s), writes := n }
            emptyManagerState).2 = []
      ∧ (loadCodebaseSnapshot env { file := some (.v1 v1s), writes := n }
          emptyManagerState).2.indexingCodebases = []
      ∧ (∀ p, p ∈ v1s.indexedCodebases → env.pathExists p = true →
          getCodebaseInfo
            (loadCodebaseSnapshot env { file := some (.v1 v1s), writes := n }
              emptyManagerState).2 p
          = some (CodebaseInfo.indexed 0 0 IndexStatusTag.completed env.now)))
    ∧ ((loadCodebaseSnapshot env { file := some (.v2 v2s), writes := n }
        emptyManagerState).1.writes = n + 1
      ∧ (loadCodebaseSnapshot env { file := some (.v2 v2s), writes := n }
          emptyManagerState).1.file
        = some (.v3 { repositories := (migrateV2ToV3 env v2s).repositories, lastUpdated := env.now })
      ∧ (∀ p, p ∈ getIndexedCodebases
          (loadCodebaseSnapshot env { file := some (.v2 v2s), writes := n }
            emptyManagerState).1
          (loadCodebaseSnapshot env { file := some (.v2 v2s), writes := n }
            emptyManagerState).2 ↔
          (env.pathExists p = true ∧ (∃ i, (p, i) ∈ v2s.codebases) ∧
           ∃ e ∈ v2s.codebases, env.pathExists e.1 = true ∧
             snapCanonicalId env e.1 = snapCanonicalId env p ∧
             e.2.status = BranchStatus.indexed))
      ∧ (∀ p, p ∈ getIndexingCodebases
          (loadCodebaseSnapshot env { file := some (.v2 v2s), writes := n }
            emptyManagerState).1
          (loadCodebaseSnapshot env { file := some (.v2 v2s), writes := n }
            emptyManagerState).2 →
          (env.pathExists p = true ∧ (∃ i, (p, i) ∈ v2s.codebases) ∧
           ∃ e ∈ v2s.codebases, env.pathExists e.1 = true ∧
             snapCanonicalId env e.1 = snapCanonicalId env p ∧
             ∃ pct u, e.2 = CodebaseInfo.indexing pct u ∧
               alookup (loadCodebaseSnapshot env { file := some (.v2 v2s), writes := n }
                 emptyManagerState).2.indexingCodebases p = some pct))
      ∧ (∀ p, env.pathExists p = true → (∃ i, (p, i) ∈ v2s.codebases) →
          ∃ e ∈ v2s.codebases, env.pathExists e.1 = true ∧
            snapCanonicalId env e.1 = snapCanonicalId env p ∧
            getCodebaseInfo
              (loadCodebaseSnapshot env { file := some (.v2 v2s), writes := n }
                emptyManagerState).2 p
            = some (legacyViewInfo e.2))) := by
  obtain ⟨K1, I1, M1⟩ := migrateV1_invariant env v1s.indexedCodebases [] (by simp) (by simp)
  have I1' : ∀ e ∈ migrateV1Groups env v1s,
      e.2.info = CodebaseInfo.indexed 0 0 IndexStatusTag.completed env.now := I1
  have M1' : ∀ p, (∃ e ∈ migrateV1Groups env v1s, p ∈ e.2.paths) ↔
      (p ∈ v1s.indexedCodebases ∧ env.pathExists p = true) := by
    intro p
    constructor
    · intro h
      rcases (M1 p).mp h with ⟨e, he, _⟩ | h2
      · cases he
      · exact h2
    · intro h
      exact (M1 p).mpr (Or.inr h)
  have hrepos1 : (migrateV1ToV3 env v1s).repositories =
      (migrateV1Groups env v1s).map (fun e => (e.1, repoSnapshotOfGroup env e.2)) :=
    buildV3_state env _ K1
  have hfilter1 : (migrateV1Groups env v1s).filter
      (fun g => g.2.info.status = BranchStatus.indexed) = migrateV1Groups env v1s := by
    rw [List.filter_eq_self]
    intro g hg
    simp [I1' g hg, CodebaseInfo.status]
  have hfilter1i : (migrateV1Groups env v1s).filter
      (fun g => g.2.info.status = BranchStatus.indexing) = [] := by
    rw [List.filter_eq_nil_iff]
    intro g hg
    simp [I1' g hg, CodebaseInfo.status]
  have hview1idx : getIndexedCodebases
      (loadCodebaseSnapshot env { file := some (.v1 v1s), writes := n } emptyManagerState).1
      (loadCodebaseSnapshot env { file := some (.v1 v1s), writes := n } emptyManagerState).2
    = (((migrateV1Groups env v1s).filter
        (fun g => g.2.info.status = BranchStatus.indexed)).map (fun g => g.2.paths)).flatten := by
    have hred : getIndexedCodebases
        (loadCodebaseSnapshot env { file := some (.v1 v1s), writes := n } emptyManagerState).1
        (loadCodebaseSnapshot env { file := some (.v1 v1s), writes := n } emptyManagerState).2
      = (migrateV1ToV3 env v1s).repositories.foldl
          (fun acc e => match alookup e.2.branches (e.2.defaultBranch.getD "default") with
            | some b => if b.status = BranchStatus.indexed then acc ++ e.2.knownPaths else acc
            | none => acc) [] := rfl
    rw [hred, hrepos1, fold_v3_view env BranchStatus.indexed (migrateV1Groups env v1s) []]
    simp
  have hview1ind : getIndexingCodebases
      (loadCodebaseSnapshot env { file := some (.v1 v1s), writes := n } emptyManagerState).1
      (loadCodebaseSnapshot env { file := some (.v1 v1s), writes := n } emptyManagerState).2
    = [] := by
    have hred : getIndexingCodebases
        (loadCodebaseSnapshot env { file := some (.v1 v1s), writes := n } emptyManagerState).1
        (loadCodebaseSnapshot env { file := some (.v1 v1s), writes := n } emptyManagerState).2
      = (migrateV1ToV3 env v1s).repositories.foldl
          (fun acc e => match alookup e.2.branches (e.2.defaultBranch.getD "default") with
            | some b => if b.status = BranchStatus.indexing then acc ++ e.2.knownPaths else acc
            | none => acc) [] := rfl
    rw [hred, hrepos1, fold_v3_view env BranchStatus.indexing (migrateV1Groups env v1s) [],
      hfilter1i]
    simp
  obtain ⟨K2, PC2, M2, S2, D2⟩ := migrateV2_invariant env v2s.codebases [] (by simp) (by simp)
  have PC2' : ∀ e ∈ migrateV2Groups env v2s, ∀ p ∈ e.2.paths,
      e.1 = snapCanonicalId env p := PC2
  have M2' : ∀ p, (∃ e ∈ migrateV2Groups env v2s, p ∈ e.2.paths) ↔
      (env.pathExists p = true ∧ ∃ i, (p, i) ∈ v2s.codebases) := by
    intro p
    constructor
    · intro h
      rcases (M2 p).mp h with ⟨e, he, _⟩ | h2
      · cases he
      · exact h2
    · exact fun h => (M2 p).mpr (Or.inr h)
  have S2' : ∀ e ∈ migrateV2Groups env v2s,
      (e.2.info.status = BranchStatus.indexed ↔
        ∃ x ∈ v2s.codebases, env.pathExists x.1 = true ∧
          snapCanonicalId env x.1 = e.1 ∧ x.2.status = BranchStatus.indexed) := by
    intro e he
    constructor
    · intro h
      rcases (S2 e he).mp h with ⟨e0, he0, _⟩ | h2
      · cases he0
      · exact h2
    · exact fun h => (S2 e he).mpr (Or.inr h)
  have D2' : ∀ e ∈ migrateV2Groups env v2s,
      ∃ x ∈ v2s.codebases, env.pathExists x.1 = true ∧
        snapCanonicalId env x.1 = e.1 ∧ e.2.info = x.2 := by
    intro e he
    rcases D2 e he with ⟨e0, he0, _⟩ | h2
    · cases he0
    · exact h2
  have hrepos2 : (migrateV2ToV3 env v2s).repositories =
      (migrateV2Groups env v2s).map (fun e => (e.1, repoSnapshotOfGroup env e.2)) :=
    buildV3_state env _ K2
  have hview2idx : getIndexedCodebases
      (loadCodebaseSnapshot env { file := some (.v2 v2s), writes := n } emptyManagerState).1
      (loadCodebaseSnapshot env { file := some (.v2 v2s), writes := n } emptyManagerState).2
    = (((migrateV2Groups env v2s).filter
        (fun g => g.2.info.status = BranchStatus.indexed)).map (fun g => g.2.paths)).flatten := by
    have hred : getIndexedCodebases
        (loadCodebaseSnapshot env { file := some (.v2 v2s), writes := n } emptyManagerState).1
        (loadCodebaseSnapshot env { file := some (.v2 v2s), writes := n } emptyManagerState).2
      = (migrateV2ToV3 env v2s).repositories.foldl
          (fun acc e => match alookup e.2.branches (e.2.defaultBranch.getD "default") with
            | some b => if b.status = BranchStatus.indexed then acc ++ e.2.knownPaths else acc
            | none => acc) [] := rfl
    rw [hred, hrepos2, fold_v3_view env BranchStatus.indexed (migrateV2Groups env v2s) []]
    simp
  have hview2ind : getIndexingCodebases
      (loadCodebaseSnapshot env { file := some (.v2 v2s), writes := n } emptyManagerState).1
      (loadCodebaseSnapshot env { file := some (.v2 v2s), writes := n } emptyManagerState).2
    = (((migrateV2Groups env v2s).filter
        (fun g => g.2.info.status = BranchStatus.indexing)).map (fun g => g.2.paths)).flatten := by
    have hred : getIndexingCodebases
        (loadCodebaseSnapshot env { file := some (.v2 v2s), writes := n } emptyManagerState).1
        (loadCodebaseSnapshot env { file := some (.v2 v2s), writes := n } emptyManagerState).2
      = (migrateV2ToV3 env v2s).repositories.foldl
          (fun acc e => match alookup e.2.branches (e.2.defaultBranch.getD "default") with
            | some b => if b.status = BranchStatus.indexing then acc ++ e.2.knownPaths else acc
            | none => acc) [] := rfl
    rw [hred, hrepos2, fold_v3_view env BranchStatus.indexing (migrateV2Groups env v2s) []]
    simp
  refine ⟨⟨rfl, rfl, ?_, hview1ind, ?_, ?_⟩, ⟨rfl, rfl, ?_, ?_, ?_⟩⟩
  · intro p
    rw [hview1idx, hfilter1, List.mem_flatten]
    constructor
    · rintro ⟨l, hl, hpl⟩
      obtain ⟨g, hg, rfl⟩ := List.mem_map.mp hl
      exact (M1' p).mp ⟨g, hg, hpl⟩
    · intro h
      obtain ⟨g, hg, hpg⟩ := (M1' p).mpr h
      exact ⟨g.2.paths, List.mem_map_of_mem _ hg, hpg⟩
  · show (migrateV1ToV3 env v1s).indexingCodebases = []
    rw [show migrateV1ToV3 env v1s
      = (migrateV1Groups env v1s).foldl (buildStep env) emptyManagerState from rfl]
    rw [buildV3_fold_indexing_empty env (migrateV1Groups env v1s) emptyManagerState
      (fun e he => by simp [I1' e he, CodebaseInfo.status])]
    rfl
  · intro p hp hex
    show alookup (migrateV1ToV3 env v1s).codebaseInfoMap p
      = some (CodebaseInfo.indexed 0 0 IndexStatusTag.completed env.now)
    rw [show migrateV1ToV3 env v1s
      = (migrateV1Groups env v1s).foldl (buildStep env) emptyManagerState from rfl]
    apply buildV3_fold_info
    · exact Or.inl ((M1' p).mpr ⟨hp, hex⟩)
    · intro e he hpe
      rw [I1' e he]
      rfl
  · intro p
    rw [hview2idx, List.mem_flatten]
    constructor
    · rintro ⟨l, hl, hpl⟩
      obtain ⟨g, hg, rfl⟩ := List.mem_map.mp hl
      have hgf := List.mem_filter.mp hg
      have hst : g.2.info.status = BranchStatus.indexed := by simpa using hgf.2
      obtain ⟨hpe, i, hi⟩ := (M2' p).mp ⟨g, hgf.1, hpl⟩
      obtain ⟨y, hy, hye, hyc, hys⟩ := (S2' g hgf.1).mp hst
      have hkey : g.1 = snapCanonicalId env p := PC2' g hgf.1 p hpl
      exact ⟨hpe, ⟨i, hi⟩, y, hy, hye, by rw [hyc]; exact hkey, hys⟩
    · rintro ⟨hpe, ⟨i, hi⟩, y, hy, hye, hyc, hys⟩
      obtain ⟨g, hg, hpg⟩ := (M2' p).mpr ⟨hpe, i, hi⟩
      have hkey : g.1 = snapCanonicalId env p := PC2' g hg p hpg
      have hst : g.2.info.status = BranchStatus.indexed :=
        (S2' g hg).mpr ⟨y, hy, hye, by rw [hyc]; exact hkey.symm, hys⟩
      exact ⟨g.2.paths, List.mem_map_of_mem _ (List.mem_filter.mpr ⟨hg, by simp [hst]⟩), hpg⟩
  · intro p hp
    rw [hview2ind, List.mem_flatten] at hp
    obtain ⟨l, hl, hpl⟩ := hp
    obtain ⟨g, hg, rfl⟩ := List.mem_map.mp hl
    have hgf := List.mem_filter.mp hg
    have hst : g.2.info.status = BranchStatus.indexing := by simpa using hgf.2
    obtain ⟨hpe, i, hi⟩ := (M2' p).mp ⟨g, hgf.1, hpl⟩
    obtain ⟨y, hy, hye, hyc, hyi⟩ := D2' g hgf.1
    have hkey : g.1 = snapCanonicalId env p := PC2' g hgf.1 p hpl
    obtain ⟨pct, u, hinfo⟩ : ∃ pct u, g.2.info = CodebaseInfo.indexing pct u := by
      cases hgi : g.2.info with
      | indexed a b c d =>
        rw [hgi] at hst
        simp [CodebaseInfo.status] at hst
      | indexing pct u => exact ⟨pct, u, rfl⟩
      | indexfailed a b c =>
        rw [hgi] at hst
        simp [CodebaseInfo.status] at hst
    have hmap : alookup (migrateV2ToV3 env v2s).indexingCodebases p = some pct := by
      rw [show migrateV2ToV3 env v2s
        = (migrateV2Groups env v2s).foldl (buildStep env) emptyManagerState from rfl]
      apply buildV3_fold_indexing
      · exact Or.inl ⟨g, hgf.1, hpl⟩
      · intro e2 he2 hpe2
        have he2g : e2 = g := nodup_key_inj _ K2 _ _ he2 hgf.1
          (by rw [PC2' e2 he2 p hpe2, hkey])
        rw [he2g, hinfo]
        exact ⟨u, rfl⟩
    exact ⟨hpe, ⟨i, hi⟩, y, hy, hye, by rw [hyc]; exact hkey, pct, u,
      hyi.symm.trans hinfo, hmap⟩
  · intro p hpe hpi
    obtain ⟨i, hi⟩ := hpi
    obtain ⟨g, hg, hpg⟩ := (M2' p).mpr ⟨hpe, i, hi⟩
    obtain ⟨y, hy, hye, hyc, hyi⟩ := D2' g hg
    have hkey : g.1 = snapCanonicalId env p := PC2' g hg p hpg
    refine ⟨y, hy, hye, by rw [hyc]; exact hkey, ?_⟩
    show alookup (migrateV2ToV3 env v2s).codebaseInfoMap p = some (legacyViewInfo y.2)
    rw [show migrateV2ToV3 env v2s
      = (migrateV2Groups env v2s).foldl (buildStep env) emptyManagerState from rfl]
    apply buildV3_fold_info
    · exact Or.inl ⟨g, hg, hpg⟩
    · intro e2 he2 hpe2
      have he2g : e2 = g := nodup_key_inj _ K2 _ _ he2 hg
        (by rw [PC2' e2 he2 p hpe2, hkey])
      rw [he2g, hyi]

/-- Witness for C5 at a concrete environment (every path exists,
identity resolution falls back to path hashing, which is the identity
function there): the migrated v1 indexed-view membership equivalence at
path `/a`, and the emptiness of the migrated v1 progress map. -/
theorem snapshotMigration_spec_witness :
    ("/a" ∈ getIndexedCodebases
        (loadCodebaseSnapshot envC5 { file := some (.v1 v1W5), writes := 0 }
          emptyManagerState).1
        (loadCodebaseSnapshot envC5 { file := some (.v1 v1W5), writes := 0 }
          emptyManagerState).2 ↔
      ("/a" ∈ v1W5.indexedCodebases ∧ envC5.pathExists "/a" = true)) ∧
    (loadCodebaseSnapshot envC5 { file := some (.v1 v1W5), writes := 0 }
      emptyManagerState).2.indexingCodebases = [] :=
  ⟨(snapshotMigration_spec envC5 v1W5 v2W5 0).1.2.2.1 "/a",
   (snapshotMigration_spec envC5 v1W5 v2W5 0).1.2.2.2.2.1⟩
